import Mathlib

/-!
Verification of the batch patch engine in `claudetool/patch.go`.

Text is modelled as `List Char` (Go byte strings, with characters as atoms).
The functions of the missing `patchkit` and `editbuf` packages (only their
callers appear under `src/`) are modelled from the spec; each such definition
carries a doc comment starting with `Modelled from the spec:`.  The four
recovery tiers of the match ladder (`patchkit.UniqueDedent`,
`UniqueInValidGo`, `UniqueGoTokens`, `UniqueTrim`) are used by `patchRun`
only as black boxes returning a unique span or nothing, so they are
parameters of the embedding, exactly as the source consumes them.
-/

namespace Shelley

/-- Text: a Go string/byte slice, one `Char` per byte. -/
abbrev Str := List Char

/-- Converts a Lean string literal to the text type. -/
def str (s : String) : Str := s.data

/-- A matched span in original-document coordinates together with the
replacement text to put there (the `patchkit.Spec` as consumed by
`patchRun` via `Spec.Off`, `Spec.Len` and `ApplyToEditBuf`). -/
structure Spec where
  off : Nat
  len : Nat
  repl : Str
deriving DecidableEq

/-- A pending edit registered with the edit buffer: the index of the
operation that registered it, its span in document coordinates and its
replacement text. -/
structure Edit where
  idx : Nat
  off : Nat
  len : Nat
  repl : Str
deriving DecidableEq

/-- Tags a matched span with the index of the operation that produced it. -/
def Spec.toEdit (s : Spec) (i : Nat) : Edit := ⟨i, s.off, s.len, s.repl⟩

/-- Indentation adjustment configuration (`Reindent` in patch.go). -/
structure Reindent where
  strip : Str
  add : Str
deriving DecidableEq

/-- A single patch operation (`PatchRequest` in patch.go).  The operation
kind is kept as raw text because the source switches on the string and has
an explicit branch for unrecognized kinds. -/
structure PatchRequest where
  operation : Str
  oldText : Str
  newText : Str
  toClipboard : Str
  fromClipboard : Str
  reindent : Option Reindent
deriving DecidableEq

/-- The clipboard store (`p.clipboards`): name-to-text entries, newest
first; a lookup takes the newest entry, so writes are last-write-wins and
nothing is ever deleted. -/
abbrev Clipboards := List (Str × Str)

/-- Reads a clipboard by name. -/
def lookupClip (c : Clipboards) (k : Str) : Option Str :=
  (c.find? (fun e => e.1 == k)).map (fun e => e.2)

/-- Writes a clipboard entry (map assignment in the source). -/
def insertClip (c : Clipboards) (k v : Str) : Clipboards := (k, v) :: c

/-- A clipboard-modified message reported to the caller: the clipboard
name and its new contents. -/
structure Note where
  name : Str
  contents : Str
deriving DecidableEq

/-- A recoverable per-operation matching error, collected via
`errors.Join` in the source. -/
inductive MatchErr where
  | notUnique (old : Str)
  | notFound (old : Str)
  | internalErr
deriving DecidableEq

/-- A structural error: any of the conditions on which `patchRun` returns
immediately with a single error. -/
inductive StructErr where
  | noPatches
  | fileMissing
  | toClipboardNonReplace (name : Str)
  | toClipboardEmptyOld (name : Str)
  | clipboardMiss (name : Str)
  | reindentErr (line : Str) (strip : Str)
  | emptyOldText (i : Nat)
  | unrecognizedOp (op : Str)
  | overlap (i j : Nat)
deriving DecidableEq

/-- The observable outcome of one `patchRun` batch.  A file write happens
exactly in the `committed` case; `warn` is the autogenerated-file warning
attached to the committed response; every case carries the final clipboard
store, which is the only state surviving the batch. -/
inductive PatchOutput where
  | structuralError (e : StructErr) (clip : Clipboards)
  | rejected (errs : List MatchErr) (notes : List Note) (clip : Clipboards)
  | committed (bytes : Str) (warn : Bool) (notes : List Note) (clip : Clipboards)
deriving DecidableEq

/-- Subrange of a text: the characters of positions `a` up to (excluding) `b`. -/
def slice (l : Str) (a b : Nat) : Str := (l.drop a).take (b - a)

/-- All positions at which `pat` occurs in `doc` (overlapping occurrences
counted separately). -/
def occs (doc pat : Str) : List Nat :=
  (List.range (doc.length + 1)).filter (fun i => pat.isPrefixOf (doc.drop i))

/-- Number of occurrences of `pat` in `doc`. -/
def countOccurrences (doc pat : Str) : Nat := (occs doc pat).length

/-- Modelled from the spec: `patchkit.Unique`, the exact-unique tier.  A
literal substring search returning the span of the first occurrence
together with the occurrence count; per the spec zero means fall through,
one means success and two or more means ambiguous, so the count is capped
at two, matching the caller's switch whose `default` branch is an internal
invariant violation. -/
def Unique (doc old nt : Str) : Spec × Nat :=
  (⟨(occs doc old).headD 0, old.length, nt⟩, min (countOccurrences doc old) 2)

/-- Modelled from the spec: the four recovery tiers of the match ladder
(`patchkit.UniqueDedent`, `UniqueInValidGo`, `UniqueGoTokens`,
`UniqueTrim`), which live in the `patchkit` package that is not under
`src/`.  `patchRun` consumes each only as a black box mapping
`(document, oldText, newText)` to a unique span or nothing, so they are
parameters here. -/
structure Tiers where
  t2 : Str → Str → Str → Option Spec
  t3 : Str → Str → Str → Option Spec
  t4 : Str → Str → Str → Option Spec
  t5 : Str → Str → Str → Option Spec

/-- The tier structure in which every recovery tier reports no match. -/
def noTiers : Tiers := ⟨fun _ _ _ => none, fun _ _ _ => none, fun _ _ _ => none, fun _ _ _ => none⟩

/-- Outcome of the match ladder for one replace operation.
`appliedExact` is a tier-1 success, `appliedAdjusted` a success of tier 2,
3 or 4 (these re-capture the clipboard), `appliedTrimmed` a tier-5 success
(clipboard re-capture deliberately suppressed in the source). -/
inductive LadderResult where
  | appliedExact (s : Spec)
  | appliedAdjusted (s : Spec)
  | appliedTrimmed (s : Spec)
  | ambiguous
  | noMatch
  | internalBad
deriving DecidableEq

/-- The match ladder of `patchRun`'s `replace` branch: `patchkit.Unique`
first, switching on its count exactly as the source does (0 falls
through, 1 succeeds, 2 is ambiguous, anything else is the defensive
default branch), then the four recovery tiers strictly in order. -/
def ladder (doc : Str) (T : Tiers) (old nt : Str) : LadderResult :=
  match (Unique doc old nt).2 with
  | 1 => .appliedExact (Unique doc old nt).1
  | 2 => .ambiguous
  | 0 =>
    match T.t2 doc old nt with
    | some s => .appliedAdjusted s
    | none =>
      match T.t3 doc old nt with
      | some s => .appliedAdjusted s
      | none =>
        match T.t4 doc old nt with
        | some s => .appliedAdjusted s
        | none =>
          match T.t5 doc old nt with
          | some s => .appliedTrimmed s
          | none => .noMatch
  | _ => .internalBad

/-- Helper for `splitNl`: the first line of the text and the remaining lines. -/
def splitNlAux : Str → Str × List Str
  | [] => ([], [])
  | c :: cs =>
    if c = '\n' then ([], (splitNlAux cs).1 :: (splitNlAux cs).2)
    else (c :: (splitNlAux cs).1, (splitNlAux cs).2)

/-- Splits text at newline characters; `strings.Split(text, "\n")`.  Always
returns at least one line. -/
def splitNl (t : Str) : List Str := (splitNlAux t).1 :: (splitNlAux t).2

/-- Joins lines with newline characters; `strings.Join(lines, "\n")`. -/
def joinNl : List Str → Str
  | [] => []
  | [l] => l
  | l :: ls => l ++ '\n' :: joinNl ls

/-- Whether text ends with a newline character. -/
def endsNl : Str → Bool
  | [] => false
  | [c] => c = '\n'
  | _ :: cs => endsNl cs

/-- Pass 1 of `reindent`: removes `strip` as a required prefix from every
non-empty line, failing on the first non-empty line that lacks it, with
the offending line and the expected prefix. -/
def stripLines (strip : Str) : List Str → Except (Str × Str) (List Str)
  | [] => .ok []
  | l :: ls =>
    if l = [] then
      match stripLines strip ls with
      | .error e => .error e
      | .ok r => .ok ([] :: r)
    else if strip.isPrefixOf l then
      match stripLines strip ls with
      | .error e => .error e
      | .ok r => .ok (l.drop strip.length :: r)
    else .error (l, strip)

/-- Pass 2 of `reindent` on one line: prepends `add` unless the line is
empty (after pass 1). -/
def addLine (add : Str) (l : Str) : Str := if l = [] then [] else add ++ l

/-- The reindent transform of patch.go: split into lines, strip the
required prefix from non-empty lines (first failure aborts, naming the
line and the prefix), prepend the new prefix to non-empty lines, rejoin
with newlines. -/
def reindent (text : Str) (adj : Reindent) : Except (Str × Str) Str :=
  match stripLines adj.strip (splitNl text) with
  | .error e => .error e
  | .ok ls => .ok (joinNl (ls.map (addLine adj.add)))

/-- State accumulated by `patchRun`'s loop over the patches: the clipboard
store, the registered edits, the collected matching errors (`patchErr`)
and the clipboard-modified messages (`clipboardsModified`). -/
structure LoopState where
  clip : Clipboards
  edits : List Edit
  errs : List MatchErr
  notes : List Note
deriving DecidableEq

/-- The `updateToClipboard` closure of `patchRun`: after a successful
recovery-tier match, overwrite the clipboard with the substring of the
original document that was actually matched and record a
clipboard-modified message.  Does nothing when the operation has no
`toClipboard` name. -/
def updateToClipboard (doc : Str) (p : PatchRequest) (st : LoopState) (s : Spec) : LoopState :=
  if p.toClipboard = [] then st
  else
    { st with
      clip := insertClip st.clip p.toClipboard (slice doc s.off (s.off + s.len))
      notes := st.notes ++ [⟨p.toClipboard, slice doc s.off (s.off + s.len)⟩] }

/-- The `fromClipboard` handling of the loop body: clipboard content
overrides the provided new text; a missing clipboard is a structural
error.  `clip1` is the clipboard store after the pre-match capture of the
same operation, so a copy within one operation works. -/
def resolveNewText (clip1 : Clipboards) (p : PatchRequest) : Except (StructErr × Clipboards) Str :=
  if p.fromClipboard ≠ [] then
    match lookupClip clip1 p.fromClipboard with
    | none => .error (.clipboardMiss p.fromClipboard, clip1)
    | some t => .ok t
  else .ok p.newText

/-- The reindent handling of the loop body: applied to the resolved new
text when configured; failure is a structural error. -/
def applyReindentE (clip1 : Clipboards) (p : PatchRequest) (nt0 : Str) :
    Except (StructErr × Clipboards) Str :=
  match p.reindent with
  | none => .ok nt0
  | some adj =>
    match reindent nt0 adj with
    | .error ls => .error (.reindentErr ls.1 ls.2, clip1)
    | .ok nt => .ok nt

/-- The switch on the operation kind at the end of the loop body,
including the match ladder for `replace`. -/
def dispatchOp (doc : Str) (T : Tiers) (i : Nat) (st : LoopState) (p : PatchRequest)
    (clip1 : Clipboards) (nt : Str) : Except (StructErr × Clipboards) LoopState :=
  if p.operation = str "prepend_bof" then
    .ok ⟨clip1, st.edits ++ [⟨i, 0, 0, nt⟩], st.errs, st.notes⟩
  else if p.operation = str "append_eof" then
    .ok ⟨clip1, st.edits ++ [⟨i, doc.length, 0, nt⟩], st.errs, st.notes⟩
  else if p.operation = str "overwrite" then
    .ok ⟨clip1, st.edits ++ [⟨i, 0, doc.length, nt⟩], st.errs, st.notes⟩
  else if p.operation = str "replace" then
    if p.oldText = [] then .error (.emptyOldText i, clip1)
    else
      match ladder doc T p.oldText nt with
      | .appliedExact s => .ok ⟨clip1, st.edits ++ [s.toEdit i], st.errs, st.notes⟩
      | .appliedAdjusted s =>
        .ok (updateToClipboard doc p ⟨clip1, st.edits ++ [s.toEdit i], st.errs, st.notes⟩ s)
      | .appliedTrimmed s => .ok ⟨clip1, st.edits ++ [s.toEdit i], st.errs, st.notes⟩
      | .ambiguous => .ok ⟨clip1, st.edits, st.errs ++ [.notUnique p.oldText], st.notes⟩
      | .noMatch => .ok ⟨clip1, st.edits, st.errs ++ [.notFound p.oldText], st.notes⟩
      | .internalBad => .ok ⟨clip1, st.edits, st.errs ++ [.internalErr], st.notes⟩
  else .error (.unrecognizedOp p.operation, clip1)

/-- The loop body after the `toClipboard` checks and pre-match capture:
`fromClipboard` resolution, reindent, then the operation switch. -/
def stepCore (doc : Str) (T : Tiers) (i : Nat) (st : LoopState) (p : PatchRequest)
    (clip1 : Clipboards) : Except (StructErr × Clipboards) LoopState :=
  match resolveNewText clip1 p with
  | .error e => .error e
  | .ok nt0 =>
    match applyReindentE clip1 p nt0 with
    | .error e => .error e
    | .ok nt => dispatchOp doc T i st p clip1 nt

/-- One iteration of `patchRun`'s loop, for the `i`-th patch: `toClipboard`
validation and pre-match capture, `fromClipboard` resolution, reindent,
then the switch on the operation kind, with the match ladder for
`replace`.  A structural error aborts with the clipboard store as already
mutated; matching failures are recorded and the loop continues. -/
def step (doc : Str) (T : Tiers) (i : Nat) (st : LoopState) (p : PatchRequest) :
    Except (StructErr × Clipboards) LoopState :=
  if p.toClipboard ≠ [] ∧ p.operation ≠ str "replace" then
    .error (.toClipboardNonReplace p.toClipboard, st.clip)
  else if p.toClipboard ≠ [] ∧ p.oldText = [] then
    .error (.toClipboardEmptyOld p.toClipboard, st.clip)
  else
    stepCore doc T i st p
      (if p.toClipboard ≠ [] then insertClip st.clip p.toClipboard p.oldText else st.clip)

/-- The loop of `patchRun` over the patches, threading the loop state and
stopping at the first structural error. -/
def runLoop (doc : Str) (T : Tiers) : Nat → LoopState → List PatchRequest →
    Except (StructErr × Clipboards) LoopState
  | _, st, [] => .ok st
  | i, st, p :: rest =>
    match step doc T i st p with
    | .error e => .error e
    | .ok st' => runLoop doc T (i + 1) st' rest

/-- Whether the spans of two registered edits have a nonempty
intersection (as half-open intervals). -/
def intersects (a b : Edit) : Bool :=
  decide (a.off < b.off + b.len) && decide (b.off < a.off + a.len)

/-- Modelled from the spec: the edit buffer's overlap check — the first
pair of registered edits whose spans intersect, reported by the indices of
the two offending operations. -/
def findOverlap : List Edit → Option (Nat × Nat)
  | [] => none
  | e :: rest =>
    match rest.find? (fun f => intersects e f) with
    | some f => some (e.idx, f.idx)
    | none => findOverlap rest

/-- Ordering of edits by offset, used to materialize the buffer. -/
def edLE (a b : Edit) : Prop := a.off ≤ b.off

instance : DecidableRel edLE := fun a b => Nat.decLe a.off b.off

instance : IsTotal Edit edLE := ⟨fun a b => Nat.le_total a.off b.off⟩

instance : IsTrans Edit edLE := ⟨fun _ _ _ h1 h2 => Nat.le_trans h1 h2⟩

/-- Replays the original content from position `pos` with each edit (given
sorted by offset) substituted for its span. -/
def applyEdits (orig : Str) : Nat → List Edit → Str
  | pos, [] => orig.drop pos
  | pos, e :: rest => slice orig pos e.off ++ e.repl ++ applyEdits orig (e.off + e.len) rest

/-- Modelled from the spec: the edit buffer's materialization
(`editbuf.Buffer.Bytes`, not under `src/`) — reject two edits whose spans
intersect, naming both offending operations; otherwise sort the edits by
offset (stably) and emit original bytes interleaved with replacements. -/
def materialize (orig : Str) (edits : List Edit) : Except (Nat × Nat) Str :=
  match findOverlap edits with
  | some p => .error p
  | none => .ok (applyEdits orig 0 (List.insertionSort edLE edits))

/-- Lower-cases text, as `strings.ToLower` for the ASCII signals involved. -/
def toLowerStr (s : Str) : Str := s.map Char.toLower

/-- Substring containment, as `bytes.Contains` / `strings.Contains`. -/
def containsStr (s pat : Str) : Bool :=
  (List.range (s.length + 1)).any (fun i => pat.isPrefixOf (s.drop i))

/-- Signals that a file is autogenerated when present anywhere in the file
(`autogeneratedSignals` in patch.go). -/
def autogeneratedSignals : List Str := [str "\nfunc bindataRead("]

/-- Signals that a file is autogenerated when present, lower-cased, in the
header comments (`autogeneratedHeaderSignals` in patch.go). -/
def autogeneratedHeaderSignals : List Str := [str "generate", str "do not edit", str "export by"]

/-- Whether a Go file has markers indicating it was autogenerated
(`IsAutogeneratedGoFile` in patch.go): a literal signal anywhere in the
file, or a header signal contained case-insensitively in a comment of the
import/header region.  The imports-only, comments-tolerant `go/parser`
call (an external collaborator outside this repository) is represented by
the `headerComments` parameter: `some ts` stands for a successful header
parse whose comment-group texts are `ts`, `none` for a failed parse, in
which case the header scan is skipped exactly as in the source. -/
def IsAutogeneratedGoFile (buf : Str) (headerComments : Option (List Str)) : Bool :=
  autogeneratedSignals.any (fun sig => containsStr buf sig) ||
    match headerComments with
    | none => false
    | some cgs =>
      cgs.any (fun t => autogeneratedHeaderSignals.any (fun sig => containsStr (toLowerStr t) sig))

/-- Whether an operation may be applied to a nonexistent file
(the `prepend_bof`, `append_eof`, `overwrite` cases of the missing-file
check in `patchRun`). -/
def creatingOp (p : PatchRequest) : Bool :=
  p.operation == str "prepend_bof" || p.operation == str "append_eof" ||
    p.operation == str "overwrite"

/-- The body of `patchRun` once the original document has been read: run
the loop, abort on a structural error, reject with all collected matching
errors if any, otherwise materialize the buffer (an overlap aborts) and
commit, attaching the autogenerated warning. -/
def patchCore (orig : Str) (patches : List PatchRequest) (clip : Clipboards) (T : Tiers)
    (goFile : Bool) (hc : Option (List Str)) : PatchOutput :=
  match runLoop orig T 0 ⟨clip, [], [], []⟩ patches with
  | .error e => .structuralError e.1 e.2
  | .ok st =>
    if st.errs.isEmpty then
      match materialize orig st.edits with
      | .error p => .structuralError (.overlap p.1 p.2) st.clip
      | .ok bytes => .committed bytes (goFile && IsAutogeneratedGoFile orig hc) st.notes st.clip
    else .rejected st.errs st.notes st.clip

/-- The patch engine `patchRun` of patch.go.  `file` is the target file's
contents (`none` when the file does not exist; reading happens after the
empty-batch check, and a missing file is tolerated only when every
operation is a creating one).  `goFile` is whether the path ends in
`.go`; `hc` abstracts the `go/parser` header parse of the original
contents, see `IsAutogeneratedGoFile`.  A file write happens exactly when
the result is `committed`. -/
def patchRun (file : Option Str) (patches : List PatchRequest) (clip : Clipboards) (T : Tiers)
    (goFile : Bool) (hc : Option (List Str)) : PatchOutput :=
  if patches.isEmpty then .structuralError .noPatches clip
  else
    match file with
    | none =>
      if patches.all creatingOp then patchCore [] patches clip T goFile hc
      else .structuralError .fileMissing clip
    | some doc => patchCore doc patches clip T goFile hc

/-- The span registered by the match ladder for one replace, if any. -/
def ladderSpec (doc : Str) (T : Tiers) (old nt : Str) : Option Spec :=
  match ladder doc T old nt with
  | .appliedExact s => some s
  | .appliedAdjusted s => some s
  | .appliedTrimmed s => some s
  | _ => none

/-- The matching error recorded by the match ladder for one replace, if
any: each failing replace contributes exactly one entry. -/
def ladderErr (doc : Str) (T : Tiers) (old nt : Str) : Option MatchErr :=
  match ladder doc T old nt with
  | .ambiguous => some (.notUnique old)
  | .noMatch => some (.notFound old)
  | .internalBad => some .internalErr
  | _ => none

/-- The edits a run of replace operations starting at index `i` registers. -/
def editsOf (doc : Str) (T : Tiers) : Nat → List PatchRequest → List Edit
  | _, [] => []
  | i, p :: ps =>
    ((ladderSpec doc T p.oldText p.newText).map (fun s => s.toEdit i)).toList ++
      editsOf doc T (i + 1) ps

/-- The aggregated matching-error list of a run of replace operations:
one entry per failing operation, in operation order. -/
def errsOf (doc : Str) (T : Tiers) (ops : List PatchRequest) : List MatchErr :=
  ops.filterMap (fun p => ladderErr doc T p.oldText p.newText)

/-- A replace operation with no clipboard substitution and no reindent and
a non-empty old text: such an operation can only succeed or record a
matching error, never abort the batch. -/
def plainReplace (p : PatchRequest) : Prop :=
  p.operation = str "replace" ∧ p.fromClipboard = [] ∧ p.reindent = none ∧ p.oldText ≠ []

instance : DecidablePred plainReplace := fun p => by unfold plainReplace; infer_instance

/-- Edits listed left to right cover disjoint, increasing spans starting
no earlier than `pos`. -/
def chainFrom : Nat → List Edit → Prop
  | _, [] => True
  | pos, e :: rest => pos ≤ e.off ∧ chainFrom (e.off + e.len) rest

/-- Forgets the autogenerated warning of a committed result. -/
def stripWarn : PatchOutput → PatchOutput
  | .committed b _ n c => .committed b false n c
  | o => o

/-- A plain replace request: no clipboard interaction, no reindent. -/
def mkReplace (old nt : Str) : PatchRequest := ⟨str "replace", old, nt, [], [], none⟩

/-- A replace request capturing its old text to a named clipboard. -/
def mkReplaceCap (old nt cap : Str) : PatchRequest := ⟨str "replace", old, nt, cap, [], none⟩

/-- A request with the given operation kind and new text only. -/
def mkOp (op nt : Str) : PatchRequest := ⟨op, [], nt, [], [], none⟩

/-! Basic facts about text slices and the boolean prefix test. -/

theorem take_of_isPrefixOf : ∀ (a b : Str), a.isPrefixOf b = true → b.take a.length = a
  | [], _, _ => rfl
  | _ :: _, [], h => by simp at h
  | a :: as, b :: bs, h => by
    rw [List.isPrefixOf_cons₂, Bool.and_eq_true, beq_iff_eq] at h
    obtain ⟨rfl, h2⟩ := h
    simp [List.take_succ_cons, take_of_isPrefixOf as bs h2]

theorem length_le_of_isPrefixOf (a b : Str) (h : a.isPrefixOf b = true) :
    a.length ≤ b.length := by
  have hc := congrArg List.length (take_of_isPrefixOf a b h)
  simp only [List.length_take] at hc
  omega

theorem slice_eq_of_isPrefixOf (doc pat : Str) (j : Nat) (h : pat.isPrefixOf (doc.drop j) = true) :
    slice doc j (j + pat.length) = pat := by
  unfold slice
  have hj : j + pat.length - j = pat.length := by omega
  rw [hj]
  exact take_of_isPrefixOf pat (doc.drop j) h

theorem slice_append_slice (l : Str) (a b c : Nat) (h1 : a ≤ b) (h2 : b ≤ c) :
    slice l a b ++ slice l b c = slice l a c := by
  unfold slice
  have hd : l.drop b = (l.drop a).drop (b - a) := by
    rw [List.drop_drop]
    congr 1
    omega
  have hc : c - a = (b - a) + (c - b) := by omega
  rw [hd, hc, List.take_add]

theorem slice_to_end (l : Str) (k : Nat) : slice l k l.length = l.drop k := by
  unfold slice
  have h : l.length - k = (l.drop k).length := by simp
  rw [h, List.take_length]

/-! Facts about the spec-modelled edit-buffer materialization. -/

theorem intersects_comm (a b : Edit) : intersects a b = intersects b a := by
  unfold intersects
  exact Bool.and_comm _ _

theorem pairwise_of_findOverlap_none : ∀ (edits : List Edit), findOverlap edits = none →
    List.Pairwise (fun a b => intersects a b = false) edits
  | [], _ => List.Pairwise.nil
  | e :: rest, h => by
    rw [findOverlap] at h
    cases hf : rest.find? (fun f => intersects e f) with
    | some f => rw [hf] at h; exact absurd h (by simp)
    | none =>
      rw [hf] at h
      refine List.Pairwise.cons ?_ (pairwise_of_findOverlap_none rest h)
      intro f hfm
      have hnf := List.find?_eq_none.mp hf f hfm
      simpa using hnf

theorem findOverlap_some : ∀ (edits : List Edit) (i j : Nat), findOverlap edits = some (i, j) →
    ∃ e f, e ∈ edits ∧ f ∈ edits ∧ e.idx = i ∧ f.idx = j ∧ intersects e f = true
  | [], i, j, h => by simp [findOverlap] at h
  | e :: rest, i, j, h => by
    rw [findOverlap] at h
    cases hf : rest.find? (fun f => intersects e f) with
    | some f =>
      rw [hf] at h
      simp only [Option.some.injEq, Prod.mk.injEq] at h
      refine ⟨e, f, List.mem_cons_self _ _, List.mem_cons_of_mem _ (List.mem_of_find?_eq_some hf),
        h.1, h.2, ?_⟩
      have := List.find?_some hf
      simpa using this
    | none =>
      rw [hf] at h
      obtain ⟨e', f', he', hf', hi, hj, hint⟩ := findOverlap_some rest i j h
      exact ⟨e', f', List.mem_cons_of_mem _ he', List.mem_cons_of_mem _ hf', hi, hj, hint⟩

theorem rel_of_pairwise_decomp {R : Edit → Edit → Prop} {u v w : List Edit} {a b : Edit}
    (h : List.Pairwise R (u ++ (a :: (v ++ (b :: w))))) : R a b := by
  have h2 := (List.pairwise_append.mp h).2.1
  rw [List.pairwise_cons] at h2
  exact h2.1 b (List.mem_append_right v (List.mem_cons_self _ _))

theorem chainFrom_of_sorted : ∀ (edits : List Edit), List.Sorted edLE edits →
    List.Pairwise (fun a b => intersects a b = false) edits →
    (∀ e ∈ edits, 1 ≤ e.len) →
    ∀ pos, (∀ e ∈ edits, pos ≤ e.off) → chainFrom pos edits
  | [], _, _, _, _, _ => trivial
  | e :: rest, hs, hp, hlen, pos, hpos => by
    rw [List.sorted_cons] at hs
    rw [List.pairwise_cons] at hp
    refine ⟨hpos e (List.mem_cons_self _ _), ?_⟩
    refine chainFrom_of_sorted rest hs.2 hp.2
      (fun f hf => hlen f (List.mem_cons_of_mem _ hf)) _ ?_
    intro f hf
    have hint := hp.1 f hf
    have hle : e.off ≤ f.off := hs.1 f hf
    have he1 : 1 ≤ e.len := hlen e (List.mem_cons_self _ _)
    have hf1 : 1 ≤ f.len := hlen f (List.mem_cons_of_mem _ hf)
    simp only [intersects, Bool.and_eq_false_iff, decide_eq_false_iff_not, not_lt] at hint
    rcases hint with h' | h' <;> omega

theorem applyEdits_id (orig : Str) : ∀ (edits : List Edit) (pos : Nat),
    chainFrom pos edits →
    (∀ e ∈ edits, e.off + e.len ≤ orig.length ∧ e.repl = slice orig e.off (e.off + e.len)) →
    applyEdits orig pos edits = orig.drop pos
  | [], pos, _, _ => rfl
  | e :: rest, pos, hch, hid => by
    obtain ⟨h1, hch'⟩ := hch
    obtain ⟨hb, hr⟩ := hid e (List.mem_cons_self _ _)
    rw [applyEdits, hr,
      applyEdits_id orig rest (e.off + e.len) hch' (fun f hf => hid f (List.mem_cons_of_mem _ hf))]
    rw [slice_append_slice orig pos e.off (e.off + e.len) h1 (by omega),
      ← slice_to_end orig (e.off + e.len),
      slice_append_slice orig pos (e.off + e.len) orig.length (by omega) hb,
      slice_to_end]

/-! Facts about line splitting and joining, for the reindent transform. -/

theorem joinNl_cons_cons (l x : Str) (xs : List Str) :
    joinNl (l :: x :: xs) = l ++ '\n' :: joinNl (x :: xs) := rfl

theorem endsNl_cc (c c2 : Char) (cs : Str) : endsNl (c :: c2 :: cs) = endsNl (c2 :: cs) := rfl

theorem splitNlAux_no_nl : ∀ (t : Str),
    '\n' ∉ (splitNlAux t).1 ∧ ∀ l ∈ (splitNlAux t).2, '\n' ∉ l
  | [] => by simp [splitNlAux]
  | c :: cs => by
    obtain ⟨h1, h2⟩ := splitNlAux_no_nl cs
    by_cases hc : c = '\n'
    · rw [splitNlAux, if_pos hc]
      refine ⟨by simp, ?_⟩
      intro l hl
      rcases List.mem_cons.mp hl with rfl | hl
      · exact h1
      · exact h2 l hl
    · rw [splitNlAux, if_neg hc]
      refine ⟨?_, h2⟩
      intro hm
      rcases List.mem_cons.mp hm with he | hm'
      · exact hc he.symm
      · exact h1 hm'

theorem no_nl_mem_splitNl (t : Str) (l : Str) (hl : l ∈ splitNl t) : '\n' ∉ l := by
  rcases List.mem_cons.mp hl with rfl | hl
  · exact (splitNlAux_no_nl t).1
  · exact (splitNlAux_no_nl t).2 l hl

theorem splitNlAux_of_no_nl : ∀ (a : Str), '\n' ∉ a → splitNlAux a = (a, [])
  | [], _ => rfl
  | c :: cs, h => by
    have hc : ¬ c = '\n' := fun he => h (he ▸ List.mem_cons_self _ _)
    rw [splitNlAux, if_neg hc, splitNlAux_of_no_nl cs (fun hm => h (List.mem_cons_of_mem _ hm))]

theorem splitNlAux_append_nl : ∀ (a rest : Str), '\n' ∉ a →
    splitNlAux (a ++ '\n' :: rest) = (a, splitNl rest)
  | [], rest, _ => by rw [List.nil_append, splitNlAux, if_pos rfl]; rfl
  | c :: cs, rest, h => by
    have hc : ¬ c = '\n' := fun he => h (he ▸ List.mem_cons_self _ _)
    rw [List.cons_append, splitNlAux, if_neg hc,
      splitNlAux_append_nl cs rest (fun hm => h (List.mem_cons_of_mem _ hm))]

theorem joinNl_splitNl : ∀ (t : Str), joinNl (splitNl t) = t
  | [] => rfl
  | c :: cs => by
    have ih := joinNl_splitNl cs
    rw [splitNl] at ih
    by_cases hc : c = '\n'
    · subst hc
      show joinNl (splitNl ('\n' :: cs)) = '\n' :: cs
      rw [splitNl, splitNlAux, if_pos rfl, joinNl_cons_cons, List.nil_append, ih]
    · show joinNl (splitNl (c :: cs)) = c :: cs
      rw [splitNl, splitNlAux, if_neg hc]
      cases h2 : (splitNlAux cs).2 with
      | nil =>
        rw [h2] at ih
        show joinNl [c :: (splitNlAux cs).1] = c :: cs
        show c :: (splitNlAux cs).1 = c :: cs
        rw [show joinNl [(splitNlAux cs).1] = (splitNlAux cs).1 from rfl] at ih
        rw [ih]
      | cons x xs =>
        rw [h2] at ih
        show joinNl ((c :: (splitNlAux cs).1) :: x :: xs) = c :: cs
        rw [joinNl_cons_cons] at ih ⊢
        rw [List.cons_append, ih]

theorem splitNl_joinNl : ∀ (ls : List Str), ls ≠ [] → (∀ l ∈ ls, '\n' ∉ l) →
    splitNl (joinNl ls) = ls
  | [], h, _ => absurd rfl h
  | [l], _, hf => by
    show splitNl l = [l]
    rw [splitNl, splitNlAux_of_no_nl l (hf l (List.mem_cons_self _ _))]
  | l :: x :: xs, _, hf => by
    rw [joinNl_cons_cons, splitNl,
      splitNlAux_append_nl l (joinNl (x :: xs)) (hf l (List.mem_cons_self _ _))]
    show l :: splitNl (joinNl (x :: xs)) = l :: x :: xs
    rw [splitNl_joinNl (x :: xs) (by simp) (fun y hy => hf y (List.mem_cons_of_mem _ hy))]

theorem endsNl_of_no_nl : ∀ (l : Str), '\n' ∉ l → endsNl l = false
  | [], _ => rfl
  | [c], h => by
    show decide (c = '\n') = false
    simp only [decide_eq_false_iff_not]
    exact fun hc => h (hc ▸ List.mem_cons_self _ _)
  | _ :: c2 :: cs, h => by
    rw [endsNl_cc]
    exact endsNl_of_no_nl (c2 :: cs) (fun hm => h (List.mem_cons_of_mem _ hm))

theorem endsNl_append_cons : ∀ (a : Str) (c : Char) (m : Str),
    endsNl (a ++ c :: m) = endsNl (c :: m)
  | [], _, _ => rfl
  | [x], c, m => by rw [List.cons_append, List.nil_append, endsNl_cc]
  | x :: y :: a', c, m => by
    rw [List.cons_append]
    have h2 : (y :: a') ++ c :: m = y :: (a' ++ c :: m) := by rw [List.cons_append]
    rw [h2, endsNl_cc, ← List.cons_append, endsNl_append_cons (y :: a') c m]

theorem endsNl_joinNl : ∀ (ls : List Str), (∀ l ∈ ls, '\n' ∉ l) →
    (endsNl (joinNl ls) = true ↔ 2 ≤ ls.length ∧ ls.getLast? = some [])
  | [], _ => by show endsNl [] = true ↔ _; simp [endsNl]
  | [l], hf => by
    show endsNl l = true ↔ _
    rw [endsNl_of_no_nl l (hf l (List.mem_cons_self _ _))]
    simp
  | l :: x :: xs, hf => by
    rw [joinNl_cons_cons, endsNl_append_cons]
    have hrest : ∀ y ∈ x :: xs, '\n' ∉ y := fun y hy => hf y (List.mem_cons_of_mem _ hy)
    cases xs with
    | nil =>
      show endsNl ('\n' :: joinNl [x]) = true ↔ _
      cases hx : (x : Str) with
      | nil =>
        subst hx
        show endsNl ['\n'] = true ↔ _
        simp [endsNl]
      | cons c cs =>
        subst hx
        show endsNl ('\n' :: c :: cs) = true ↔ _
        rw [endsNl_cc]
        rw [endsNl_of_no_nl (c :: cs) (hrest (c :: cs) (List.mem_cons_self _ _))]
        simp
    | cons y ys =>
      have hne : joinNl (x :: y :: ys) ≠ [] := by
        rw [joinNl_cons_cons]
        cases x <;> simp
      cases hj : joinNl (x :: y :: ys) with
      | nil => exact absurd hj hne
      | cons c cs =>
        show endsNl ('\n' :: c :: cs) = true ↔ _
        rw [endsNl_cc, ← hj]
        rw [endsNl_joinNl (x :: y :: ys) hrest]
        simp

/-! Facts about the two passes of the reindent transform. -/

theorem stripLines_ok (strip : Str) : ∀ (ls : List Str),
    (∀ l ∈ ls, l ≠ [] → strip.isPrefixOf l = true) →
    stripLines strip ls = .ok (ls.map (fun l => if l = [] then [] else l.drop strip.length))
  | [], _ => rfl
  | l :: ls, h => by
    rw [stripLines]
    by_cases hl : l = []
    · rw [if_pos hl, stripLines_ok strip ls (fun x hx hne => h x (List.mem_cons_of_mem _ hx) hne)]
      simp [hl]
    · rw [if_neg hl]
      have hp : strip.isPrefixOf l = true := h l (List.mem_cons_self _ _) hl
      rw [hp]
      rw [stripLines_ok strip ls (fun x hx hne => h x (List.mem_cons_of_mem _ hx) hne)]
      simp [hl]

theorem stripLines_ok_inv (strip : Str) : ∀ (ls : List Str) (r : List Str),
    stripLines strip ls = .ok r → ∀ l ∈ ls, l ≠ [] → strip.isPrefixOf l = true
  | [], _, _, l, hl, _ => absurd hl (List.not_mem_nil l)
  | x :: ls, r, h, l, hl, hne => by
    rw [stripLines] at h
    by_cases hx : x = []
    · rw [if_pos hx] at h
      cases hs : stripLines strip ls with
      | error e => rw [hs] at h; exact absurd h (by simp)
      | ok r' =>
        rw [hs] at h
        rcases List.mem_cons.mp hl with rfl | hl'
        · exact absurd hx hne
        · exact stripLines_ok_inv strip ls r' hs l hl' hne
    · rw [if_neg hx] at h
      cases hp : strip.isPrefixOf x with
      | false => rw [hp] at h; exact absurd h (by simp)
      | true =>
        rw [hp] at h
        cases hs : stripLines strip ls with
        | error e => rw [hs] at h; exact absurd h (by simp)
        | ok r' =>
          rcases List.mem_cons.mp hl with rfl | hl'
          · exact hp
          · exact stripLines_ok_inv strip ls r' hs l hl' hne

theorem stripLines_error_first (strip : Str) :
    ∀ (la : List Str) (l : Str) (lb : List Str),
    (∀ x ∈ la, x = [] ∨ strip.isPrefixOf x = true) → l ≠ [] → strip.isPrefixOf l = false →
    stripLines strip (la ++ l :: lb) = .error (l, strip)
  | [], l, lb, _, hl, hpf => by
    rw [List.nil_append, stripLines, if_neg hl, hpf]
    simp
  | x :: la', l, lb, h, hl, hpf => by
    rw [List.cons_append, stripLines]
    have ih := stripLines_error_first strip la' l lb
      (fun y hy => h y (List.mem_cons_of_mem _ hy)) hl hpf
    by_cases hx : x = []
    · rw [if_pos hx, ih]
    · rw [if_neg hx]
      rcases h x (List.mem_cons_self _ _) with he | hp
      · exact absurd he hx
      · rw [hp, ih]
        simp

/-! Facts about occurrence positions and the exact-unique tier. -/

theorem mem_occs (doc pat : Str) (j : Nat) :
    j ∈ occs doc pat ↔ j ≤ doc.length ∧ pat.isPrefixOf (doc.drop j) = true := by
  unfold occs
  rw [List.mem_filter, List.mem_range]
  rw [Nat.lt_succ_iff]

theorem occs_singleton_of_count_one (doc pat : Str) (h : countOccurrences doc pat = 1) :
    ∃ j, occs doc pat = [j] := by
  unfold countOccurrences at h
  exact List.length_eq_one.mp h

theorem occ_bounds (doc pat : Str) (j : Nat) (ho : occs doc pat = [j]) :
    pat.isPrefixOf (doc.drop j) = true ∧ j + pat.length ≤ doc.length := by
  have hm : j ∈ occs doc pat := ho ▸ List.mem_cons_self _ _
  rw [mem_occs] at hm
  refine ⟨hm.2, ?_⟩
  have hlen := length_le_of_isPrefixOf pat (doc.drop j) hm.2
  rw [List.length_drop] at hlen
  omega

theorem Unique_of_occs_singleton (doc old nt : Str) (j : Nat) (ho : occs doc old = [j]) :
    Unique doc old nt = (⟨j, old.length, nt⟩, 1) := by
  unfold Unique countOccurrences
  rw [ho]
  rfl

theorem ladder_count_one (doc : Str) (T : Tiers) (old nt : Str) (j : Nat)
    (ho : occs doc old = [j]) :
    ladder doc T old nt = .appliedExact ⟨j, old.length, nt⟩ := by
  unfold ladder
  rw [Unique_of_occs_singleton doc old nt j ho]
  rfl

theorem ladder_count_ge2 (doc : Str) (T : Tiers) (old nt : Str)
    (h : 2 ≤ countOccurrences doc old) :
    ladder doc T old nt = .ambiguous := by
  unfold ladder
  have h2 : (Unique doc old nt).2 = 2 := by
    unfold Unique
    simp only []
    omega
  rw [h2]

theorem Unique_snd_zero (doc old nt : Str) (h : countOccurrences doc old = 0) :
    (Unique doc old nt).2 = 0 := by
  unfold Unique
  simp only []
  omega

theorem ladder_count_zero (doc : Str) (T : Tiers) (old nt : Str)
    (h : countOccurrences doc old = 0) :
    ladder doc T old nt =
      (match T.t2 doc old nt with
      | some s => .appliedAdjusted s
      | none =>
        match T.t3 doc old nt with
        | some s => .appliedAdjusted s
        | none =>
          match T.t4 doc old nt with
          | some s => .appliedAdjusted s
          | none =>
            match T.t5 doc old nt with
            | some s => .appliedTrimmed s
            | none => .noMatch) := by
  unfold ladder
  rw [Unique_snd_zero doc old nt h]

/-! Facts about the clipboard store. -/

theorem lookupClip_insert_self (c : Clipboards) (k v : Str) :
    lookupClip (insertClip c k v) k = some v := by
  simp [lookupClip, insertClip]

theorem lookupClip_mono_append : ∀ (pre c : Clipboards) (k v : Str),
    lookupClip c k = some v → ∃ v', lookupClip (pre ++ c) k = some v'
  | [], _, _, v, h => ⟨v, h⟩
  | e :: pre', c, k, v, h => by
    rw [List.cons_append]
    by_cases he : e.1 == k
    · exact ⟨e.2, by simp [lookupClip, List.find?, he]⟩
    · obtain ⟨v', hv'⟩ := lookupClip_mono_append pre' c k v h
      refine ⟨v', ?_⟩
      simp only [lookupClip, List.find?] at hv' ⊢
      rw [Bool.not_eq_true] at he
      rw [he]
      exact hv'

/-! Unfolding lemmas for one loop iteration (`step`), by case. -/

theorem step_toClipboard_nonreplace (doc : Str) (T : Tiers) (i : Nat) (st : LoopState)
    (p : PatchRequest) (h1 : p.toClipboard ≠ []) (h2 : p.operation ≠ str "replace") :
    step doc T i st p = .error (.toClipboardNonReplace p.toClipboard, st.clip) := by
  unfold step
  rw [if_pos ⟨h1, h2⟩]

theorem step_toClipboard_emptyOld (doc : Str) (T : Tiers) (i : Nat) (st : LoopState)
    (p : PatchRequest) (h1 : p.toClipboard ≠ []) (hop : p.operation = str "replace")
    (hold : p.oldText = []) :
    step doc T i st p = .error (.toClipboardEmptyOld p.toClipboard, st.clip) := by
  unfold step
  rw [if_neg (fun hc => hc.2 hop), if_pos ⟨h1, hold⟩]

theorem step_clipboardMiss (doc : Str) (T : Tiers) (i : Nat) (st : LoopState)
    (p : PatchRequest) (htc : p.toClipboard = []) (hfc : p.fromClipboard ≠ [])
    (hmiss : lookupClip st.clip p.fromClipboard = none) :
    step doc T i st p = .error (.clipboardMiss p.fromClipboard, st.clip) := by
  obtain ⟨op, old, new, toC, fromC, rei⟩ := p
  simp only at htc hfc hmiss
  subst htc
  simp [step, stepCore, resolveNewText, hfc, hmiss]

theorem step_reindentErr (doc : Str) (T : Tiers) (i : Nat) (st : LoopState)
    (p : PatchRequest) (adj : Reindent) (l s : Str)
    (htc : p.toClipboard = []) (hfc : p.fromClipboard = []) (hri : p.reindent = some adj)
    (herr : reindent p.newText adj = .error (l, s)) :
    step doc T i st p = .error (.reindentErr l s, st.clip) := by
  obtain ⟨op, old, new, toC, fromC, rei⟩ := p
  simp only at htc hfc hri herr
  subst htc
  subst hfc
  subst hri
  simp [step, stepCore, resolveNewText, applyReindentE, herr]

theorem step_emptyOld (doc : Str) (T : Tiers) (i : Nat) (st : LoopState)
    (p : PatchRequest) (htc : p.toClipboard = []) (hfc : p.fromClipboard = [])
    (hri : p.reindent = none) (hop : p.operation = str "replace") (hold : p.oldText = []) :
    step doc T i st p = .error (.emptyOldText i, st.clip) := by
  obtain ⟨op, old, new, toC, fromC, rei⟩ := p
  simp only at htc hfc hri hop hold
  subst htc
  subst hfc
  subst hri
  subst hop
  subst hold
  simp [step, stepCore, resolveNewText, applyReindentE, dispatchOp]
  rw [if_neg (by decide : ¬ str "replace" = str "prepend_bof"),
    if_neg (by decide : ¬ str "replace" = str "append_eof"),
    if_neg (by decide : ¬ str "replace" = str "overwrite")]

theorem step_unrecognized (doc : Str) (T : Tiers) (i : Nat) (st : LoopState)
    (p : PatchRequest) (htc : p.toClipboard = []) (hfc : p.fromClipboard = [])
    (hri : p.reindent = none)
    (h1 : p.operation ≠ str "prepend_bof") (h2 : p.operation ≠ str "append_eof")
    (h3 : p.operation ≠ str "overwrite") (h4 : p.operation ≠ str "replace") :
    step doc T i st p = .error (.unrecognizedOp p.operation, st.clip) := by
  obtain ⟨op, old, new, toC, fromC, rei⟩ := p
  simp only at htc hfc hri h1 h2 h3 h4
  subst htc
  subst hfc
  subst hri
  simp [step, stepCore, resolveNewText, applyReindentE, dispatchOp, h1, h2, h3, h4]

theorem step_overwrite (doc : Str) (T : Tiers) (i : Nat) (st : LoopState) (nt : Str) :
    step doc T i st (mkOp (str "overwrite") nt) =
      .ok ⟨st.clip, st.edits ++ [⟨i, 0, doc.length, nt⟩], st.errs, st.notes⟩ := by
  simp [step, stepCore, resolveNewText, applyReindentE, dispatchOp, mkOp]
  rw [if_neg (by decide : ¬ str "overwrite" = str "prepend_bof"),
    if_neg (by decide : ¬ str "overwrite" = str "append_eof")]

theorem updateToClipboard_edits (doc : Str) (p : PatchRequest) (st : LoopState) (s : Spec) :
    (updateToClipboard doc p st s).edits = st.edits := by
  unfold updateToClipboard
  split <;> rfl

theorem updateToClipboard_errs (doc : Str) (p : PatchRequest) (st : LoopState) (s : Spec) :
    (updateToClipboard doc p st s).errs = st.errs := by
  unfold updateToClipboard
  split <;> rfl

/-- A plain replace never aborts: it registers the ladder's span if the
ladder succeeds and records the ladder's single error if it fails. -/
theorem step_plain (doc : Str) (T : Tiers) (i : Nat) (st : LoopState) (p : PatchRequest)
    (hp : plainReplace p) :
    ∃ c n, step doc T i st p =
      .ok ⟨c, st.edits ++ ((ladderSpec doc T p.oldText p.newText).map (fun s => s.toEdit i)).toList,
        st.errs ++ (ladderErr doc T p.oldText p.newText).toList, n⟩ := by
  obtain ⟨hop, hfc, hri, hne⟩ := hp
  obtain ⟨op, old, new, toC, fromC, rei⟩ := p
  simp only at hop hfc hri hne ⊢
  subst hop
  subst hfc
  subst hri
  unfold step stepCore resolveNewText applyReindentE dispatchOp
  rw [if_neg (fun hc : toC ≠ [] ∧ str "replace" ≠ str "replace" => hc.2 rfl),
    if_neg (fun hc : toC ≠ [] ∧ old = [] => hne hc.2)]
  simp only [ne_eq, not_true_eq_false, ite_false, if_false, reduceIte]
  rw [if_neg (by decide : ¬ str "replace" = str "prepend_bof"),
    if_neg (by decide : ¬ str "replace" = str "append_eof"),
    if_neg (by decide : ¬ str "replace" = str "overwrite"),
    if_neg hne]
  cases hl : ladder doc T old new with
  | appliedExact s =>
    exact ⟨if toC = [] then st.clip else insertClip st.clip toC old, st.notes,
      by simp [ladderSpec, ladderErr, hl]⟩
  | appliedAdjusted s =>
    by_cases htc : toC = []
    · exact ⟨st.clip, st.notes, by simp [updateToClipboard, htc, ladderSpec, ladderErr, hl]⟩
    · exact ⟨insertClip (insertClip st.clip toC old) toC (slice doc s.off (s.off + s.len)),
        st.notes ++ [⟨toC, slice doc s.off (s.off + s.len)⟩],
        by simp [updateToClipboard, htc, ladderSpec, ladderErr, hl]⟩
  | appliedTrimmed s =>
    exact ⟨if toC = [] then st.clip else insertClip st.clip toC old, st.notes,
      by simp [ladderSpec, ladderErr, hl]⟩
  | ambiguous =>
    exact ⟨if toC = [] then st.clip else insertClip st.clip toC old, st.notes,
      by simp [ladderSpec, ladderErr, hl]⟩
  | noMatch =>
    exact ⟨if toC = [] then st.clip else insertClip st.clip toC old, st.notes,
      by simp [ladderSpec, ladderErr, hl]⟩
  | internalBad =>
    exact ⟨if toC = [] then st.clip else insertClip st.clip toC old, st.notes,
      by simp [ladderSpec, ladderErr, hl]⟩

/-- Looping over plain replaces never aborts; the final state carries the
registered spans and exactly one recorded error per failing operation, in
operation order. -/
theorem runLoop_plain (doc : Str) (T : Tiers) :
    ∀ (ops : List PatchRequest) (i : Nat) (st : LoopState),
    (∀ p ∈ ops, plainReplace p) →
    ∃ c n, runLoop doc T i st ops =
      .ok ⟨c, st.edits ++ editsOf doc T i ops, st.errs ++ errsOf doc T ops, n⟩
  | [], i, st, _ => ⟨st.clip, st.notes, by simp [runLoop, editsOf, errsOf]⟩
  | p :: ps, i, st, h => by
    obtain ⟨c1, n1, hstep⟩ := step_plain doc T i st p (h p (List.mem_cons_self _ _))
    obtain ⟨c2, n2, hloop⟩ := runLoop_plain doc T ps (i + 1)
      ⟨c1, st.edits ++ ((ladderSpec doc T p.oldText p.newText).map (fun s => s.toEdit i)).toList,
        st.errs ++ (ladderErr doc T p.oldText p.newText).toList, n1⟩
      (fun q hq => h q (List.mem_cons_of_mem _ hq))
    refine ⟨c2, n2, ?_⟩
    rw [runLoop, hstep]
    show runLoop doc T (i + 1) _ ps = _
    rw [hloop]
    simp only [editsOf, errsOf, List.filterMap_cons]
    cases he : ladderErr doc T p.oldText p.newText <;> simp [he, List.append_assoc]

set_option maxHeartbeats 1000000 in
theorem step_clip_extend (doc : Str) (T : Tiers) (i : Nat) (st : LoopState) (p : PatchRequest)
    (st' : LoopState) (h : step doc T i st p = .ok st') :
    ∃ pre, st'.clip = pre ++ st.clip := by
  unfold step stepCore resolveNewText applyReindentE dispatchOp at h
  repeat' split at h
  all_goals simp at h
  all_goals subst h
  all_goals simp only [updateToClipboard, insertClip]
  all_goals (repeat' split)
  all_goals first
    | exact ⟨[], rfl⟩
    | exact ⟨[_], rfl⟩
    | exact ⟨[_, _], rfl⟩

set_option maxHeartbeats 1000000 in
theorem step_toC_some (doc : Str) (T : Tiers) (i : Nat) (st : LoopState) (p : PatchRequest)
    (st' : LoopState) (h : step doc T i st p = .ok st') (htc : p.toClipboard ≠ []) :
    ∃ v, lookupClip st'.clip p.toClipboard = some v := by
  unfold step stepCore resolveNewText applyReindentE dispatchOp at h
  repeat' split at h
  all_goals simp at h
  all_goals subst h
  all_goals simp [updateToClipboard, htc, lookupClip_insert_self]

theorem runLoop_clip_extend (doc : Str) (T : Tiers) :
    ∀ (ops : List PatchRequest) (i : Nat) (st st' : LoopState),
    runLoop doc T i st ops = .ok st' → ∃ pre, st'.clip = pre ++ st.clip
  | [], i, st, st', h => by
    rw [runLoop] at h
    injection h with h'
    subst h'
    exact ⟨[], rfl⟩
  | p :: ps, i, st, st', h => by
    rw [runLoop] at h
    cases hs : step doc T i st p with
    | error e => rw [hs] at h; exact absurd h (by simp)
    | ok st1 =>
      rw [hs] at h
      obtain ⟨pre1, h1⟩ := step_clip_extend doc T i st p st1 hs
      obtain ⟨pre2, h2⟩ := runLoop_clip_extend doc T ps (i + 1) st1 st' h
      exact ⟨pre2 ++ pre1, by rw [h2, h1, List.append_assoc]⟩

theorem runLoop_toC_some (doc : Str) (T : Tiers) :
    ∀ (ops : List PatchRequest) (i : Nat) (st st' : LoopState),
    runLoop doc T i st ops = .ok st' →
    ∀ p ∈ ops, p.toClipboard ≠ [] → ∃ v, lookupClip st'.clip p.toClipboard = some v
  | [], _, _, _, _, p, hp, _ => absurd hp (List.not_mem_nil p)
  | q :: ps, i, st, st', h, p, hp, htc => by
    rw [runLoop] at h
    cases hs : step doc T i st q with
    | error e => rw [hs] at h; exact absurd h (by simp)
    | ok st1 =>
      rw [hs] at h
      rcases List.mem_cons.mp hp with rfl | hp'
      · obtain ⟨v, hv⟩ := step_toC_some doc T i st p st1 hs htc
        obtain ⟨pre, hpre⟩ := runLoop_clip_extend doc T ps (i + 1) st1 st' h
        obtain ⟨v', hv'⟩ := lookupClip_mono_append pre st1.clip p.toClipboard v hv
        exact ⟨v', by rw [hpre]; exact hv'⟩
      · exact runLoop_toC_some doc T ps (i + 1) st1 st' h p hp' htc

theorem step_error_of_empty_replace (doc : Str) (T : Tiers) (i : Nat) (st : LoopState)
    (p : PatchRequest) (hop : p.operation = str "replace") (hfc : p.fromClipboard = [])
    (hri : p.reindent = none) (hold : p.oldText = []) :
    ∃ e, step doc T i st p = .error e := by
  by_cases htc : p.toClipboard = []
  · exact ⟨_, step_emptyOld doc T i st p htc hfc hri hop hold⟩
  · exact ⟨_, step_toClipboard_emptyOld doc T i st p htc hop hold⟩

theorem runLoop_ok_no_empty_replace (doc : Str) (T : Tiers) :
    ∀ (ops : List PatchRequest) (i : Nat) (st st' : LoopState),
    runLoop doc T i st ops = .ok st' →
    ∀ p ∈ ops, ¬(p.operation = str "replace" ∧ p.fromClipboard = [] ∧ p.reindent = none ∧
      p.oldText = [])
  | [], _, _, _, _, p, hp => absurd hp (List.not_mem_nil p)
  | q :: ps, i, st, st', h, p, hp => by
    rw [runLoop] at h
    cases hs : step doc T i st q with
    | error e => rw [hs] at h; exact absurd h (by simp)
    | ok st1 =>
      rw [hs] at h
      rcases List.mem_cons.mp hp with rfl | hp'
      · rintro ⟨hop, hfc, hri, hold⟩
        obtain ⟨e, he⟩ := step_error_of_empty_replace doc T i st p hop hfc hri hold
        rw [he] at hs
        exact absurd hs (by simp)
      · exact runLoop_ok_no_empty_replace doc T ps (i + 1) st1 st' h p hp'

/-! Bridging lemmas between `patchRun`, `patchCore` and the loop. -/

theorem patchRun_some_ne (doc : Str) (ps : List PatchRequest) (clip : Clipboards) (T : Tiers)
    (g : Bool) (hc : Option (List Str)) (h : ps ≠ []) :
    patchRun (some doc) ps clip T g hc = patchCore doc ps clip T g hc := by
  cases ps with
  | nil => exact absurd rfl h
  | cons q qs => rfl

theorem patchCore_eq_of_runLoop_error (orig : Str) (ps : List PatchRequest) (clip : Clipboards)
    (T : Tiers) (g : Bool) (hc : Option (List Str)) (e : StructErr × Clipboards)
    (hr : runLoop orig T 0 ⟨clip, [], [], []⟩ ps = .error e) :
    patchCore orig ps clip T g hc = .structuralError e.1 e.2 := by
  unfold patchCore
  rw [hr]

theorem patchCore_eq_of_runLoop_ok (orig : Str) (ps : List PatchRequest) (clip : Clipboards)
    (T : Tiers) (g : Bool) (hc : Option (List Str)) (st : LoopState)
    (hr : runLoop orig T 0 ⟨clip, [], [], []⟩ ps = .ok st) :
    patchCore orig ps clip T g hc =
      (if st.errs.isEmpty then
        match materialize orig st.edits with
        | .error p => .structuralError (.overlap p.1 p.2) st.clip
        | .ok bytes => .committed bytes (g && IsAutogeneratedGoFile orig hc) st.notes st.clip
      else .rejected st.errs st.notes st.clip) := by
  unfold patchCore
  rw [hr]

theorem patchCore_rejected_inv (orig : Str) (ps : List PatchRequest) (clip : Clipboards)
    (T : Tiers) (g : Bool) (hc : Option (List Str)) (errs : List MatchErr) (notes : List Note)
    (clip' : Clipboards) (h : patchCore orig ps clip T g hc = .rejected errs notes clip') :
    ∃ st, runLoop orig T 0 ⟨clip, [], [], []⟩ ps = .ok st ∧ clip' = st.clip ∧
      errs = st.errs ∧ notes = st.notes := by
  cases hr : runLoop orig T 0 ⟨clip, [], [], []⟩ ps with
  | error e =>
    rw [patchCore_eq_of_runLoop_error orig ps clip T g hc e hr] at h
    exact absurd h (by simp)
  | ok st =>
    rw [patchCore_eq_of_runLoop_ok orig ps clip T g hc st hr] at h
    by_cases he : st.errs.isEmpty
    · rw [if_pos he] at h
      cases hm : materialize orig st.edits with
      | error p => rw [hm] at h; exact absurd h (by simp)
      | ok bytes => rw [hm] at h; exact absurd h (by simp)
    · rw [if_neg he] at h
      simp only [PatchOutput.rejected.injEq] at h
      exact ⟨st, rfl, h.2.2.symm, h.1.symm, h.2.1.symm⟩

theorem patchCore_committed_inv (orig : Str) (ps : List PatchRequest) (clip : Clipboards)
    (T : Tiers) (g : Bool) (hc : Option (List Str)) (bytes : Str) (w : Bool) (notes : List Note)
    (clip' : Clipboards) (h : patchCore orig ps clip T g hc = .committed bytes w notes clip') :
    ∃ st, runLoop orig T 0 ⟨clip, [], [], []⟩ ps = .ok st ∧ st.errs = [] ∧
      materialize orig st.edits = .ok bytes ∧ clip' = st.clip ∧
      w = (g && IsAutogeneratedGoFile orig hc) := by
  cases hr : runLoop orig T 0 ⟨clip, [], [], []⟩ ps with
  | error e =>
    rw [patchCore_eq_of_runLoop_error orig ps clip T g hc e hr] at h
    exact absurd h (by simp)
  | ok st =>
    rw [patchCore_eq_of_runLoop_ok orig ps clip T g hc st hr] at h
    by_cases he : st.errs.isEmpty
    · rw [if_pos he] at h
      cases hm : materialize orig st.edits with
      | error p => rw [hm] at h; exact absurd h (by simp)
      | ok bs =>
        rw [hm] at h
        simp only [PatchOutput.committed.injEq] at h
        refine ⟨st, rfl, List.isEmpty_iff.mp he, ?_, h.2.2.2.symm, h.2.1.symm⟩
        rw [hm, h.1]
    · rw [if_neg he] at h
      exact absurd h (by simp)

theorem patchRun_rejected_inv (f : Option Str) (ps : List PatchRequest) (clip : Clipboards)
    (T : Tiers) (g : Bool) (hc : Option (List Str)) (errs : List MatchErr) (notes : List Note)
    (clip' : Clipboards) (h : patchRun f ps clip T g hc = .rejected errs notes clip') :
    ∃ doc st, runLoop doc T 0 ⟨clip, [], [], []⟩ ps = .ok st ∧ clip' = st.clip := by
  cases ps with
  | nil => exact absurd h (by simp [patchRun])
  | cons q qs =>
    cases f with
    | some doc =>
      rw [patchRun_some_ne doc (q :: qs) clip T g hc (by simp)] at h
      obtain ⟨st, hr, hclip, _, _⟩ :=
        patchCore_rejected_inv doc (q :: qs) clip T g hc errs notes clip' h
      exact ⟨doc, st, hr, hclip⟩
    | none =>
      have h2 : (if (q :: qs).all creatingOp then patchCore [] (q :: qs) clip T g hc
          else .structuralError .fileMissing clip) = .rejected errs notes clip' := h
      by_cases hall : (q :: qs).all creatingOp
      · rw [if_pos hall] at h2
        obtain ⟨st, hr, hclip, _, _⟩ :=
          patchCore_rejected_inv [] (q :: qs) clip T g hc errs notes clip' h2
        exact ⟨[], st, hr, hclip⟩
      · rw [if_neg hall] at h2
        exact absurd h2 (by simp)

/-- A plain replace with no capture name leaves the clipboard store and
the notes untouched. -/
theorem step_plain_nocap (doc : Str) (T : Tiers) (i : Nat) (st : LoopState) (p : PatchRequest)
    (hp : plainReplace p) (htc : p.toClipboard = []) :
    step doc T i st p =
      .ok ⟨st.clip,
        st.edits ++ ((ladderSpec doc T p.oldText p.newText).map (fun s => s.toEdit i)).toList,
        st.errs ++ (ladderErr doc T p.oldText p.newText).toList, st.notes⟩ := by
  obtain ⟨hop, hfc, hri, hne⟩ := hp
  obtain ⟨op, old, new, toC, fromC, rei⟩ := p
  simp only at hop hfc hri hne htc ⊢
  subst hop
  subst hfc
  subst hri
  subst htc
  unfold step stepCore resolveNewText applyReindentE dispatchOp
  simp only [ne_eq, not_true_eq_false, ite_false, if_false, reduceIte, false_and, not_false_iff]
  rw [if_neg (by decide : ¬ str "replace" = str "prepend_bof"),
    if_neg (by decide : ¬ str "replace" = str "append_eof"),
    if_neg (by decide : ¬ str "replace" = str "overwrite"),
    if_neg hne]
  cases hl : ladder doc T old new with
  | appliedExact s => simp [ladderSpec, ladderErr, hl]
  | appliedAdjusted s => simp [updateToClipboard, ladderSpec, ladderErr, hl]
  | appliedTrimmed s => simp [ladderSpec, ladderErr, hl]
  | ambiguous => simp [ladderSpec, ladderErr, hl]
  | noMatch => simp [ladderSpec, ladderErr, hl]
  | internalBad => simp [ladderSpec, ladderErr, hl]

theorem runLoop_plain_nocap (doc : Str) (T : Tiers) :
    ∀ (ops : List PatchRequest) (i : Nat) (st : LoopState),
    (∀ p ∈ ops, plainReplace p ∧ p.toClipboard = []) →
    runLoop doc T i st ops =
      .ok ⟨st.clip, st.edits ++ editsOf doc T i ops, st.errs ++ errsOf doc T ops, st.notes⟩
  | [], i, st, _ => by simp [runLoop, editsOf, errsOf]
  | p :: ps, i, st, h => by
    have hs := step_plain_nocap doc T i st p (h p (List.mem_cons_self _ _)).1
      (h p (List.mem_cons_self _ _)).2
    rw [runLoop, hs]
    show runLoop doc T (i + 1) _ ps = _
    rw [runLoop_plain_nocap doc T ps (i + 1) _ (fun q hq => h q (List.mem_cons_of_mem _ hq))]
    simp only [editsOf, errsOf, List.filterMap_cons]
    cases he : ladderErr doc T p.oldText p.newText <;> simp [he, List.append_assoc]

/-- Materializing a single registered edit. -/
theorem materialize_single (orig : Str) (e : Edit) :
    materialize orig [e] = .ok (slice orig 0 e.off ++ e.repl ++ orig.drop (e.off + e.len)) := rfl

/-! The recovery tiers through the ladder, given a tier-1 count of zero. -/

theorem ladder_t2 (doc : Str) (T : Tiers) (old nt : Str) (s : Spec)
    (h0 : countOccurrences doc old = 0) (h2 : T.t2 doc old nt = some s) :
    ladder doc T old nt = .appliedAdjusted s := by
  rw [ladder_count_zero doc T old nt h0, h2]

theorem ladder_t3 (doc : Str) (T : Tiers) (old nt : Str) (s : Spec)
    (h0 : countOccurrences doc old = 0) (h2 : T.t2 doc old nt = none)
    (h3 : T.t3 doc old nt = some s) :
    ladder doc T old nt = .appliedAdjusted s := by
  rw [ladder_count_zero doc T old nt h0, h2, h3]

theorem ladder_t4 (doc : Str) (T : Tiers) (old nt : Str) (s : Spec)
    (h0 : countOccurrences doc old = 0) (h2 : T.t2 doc old nt = none)
    (h3 : T.t3 doc old nt = none) (h4 : T.t4 doc old nt = some s) :
    ladder doc T old nt = .appliedAdjusted s := by
  rw [ladder_count_zero doc T old nt h0, h2, h3, h4]

theorem ladder_t5 (doc : Str) (T : Tiers) (old nt : Str) (s : Spec)
    (h0 : countOccurrences doc old = 0) (h2 : T.t2 doc old nt = none)
    (h3 : T.t3 doc old nt = none) (h4 : T.t4 doc old nt = none) (h5 : T.t5 doc old nt = some s) :
    ladder doc T old nt = .appliedTrimmed s := by
  rw [ladder_count_zero doc T old nt h0, h2, h3, h4, h5]

theorem ladder_all_none (doc : Str) (T : Tiers) (old nt : Str)
    (h0 : countOccurrences doc old = 0) (h2 : T.t2 doc old nt = none)
    (h3 : T.t3 doc old nt = none) (h4 : T.t4 doc old nt = none) (h5 : T.t5 doc old nt = none) :
    ladder doc T old nt = .noMatch := by
  rw [ladder_count_zero doc T old nt h0, h2, h3, h4, h5]

/-- Materialization is the identity when every registered edit replaces
its own span by that span's original content: the heart of idempotence. -/
theorem materialize_id (orig : Str) (edits : List Edit)
    (hok : findOverlap edits = none)
    (hid : ∀ e ∈ edits, e.off + e.len ≤ orig.length ∧ e.repl = slice orig e.off (e.off + e.len))
    (hlen : ∀ e ∈ edits, 1 ≤ e.len) :
    materialize orig edits = .ok orig := by
  unfold materialize
  rw [hok]
  have hperm := List.perm_insertionSort edLE edits
  have hmem : ∀ e ∈ List.insertionSort edLE edits, e ∈ edits := fun e he =>
    (List.mem_insertionSort edLE).mp he
  have hsorted := List.sorted_insertionSort edLE edits
  have hpair : List.Pairwise (fun a b => intersects a b = false) (List.insertionSort edLE edits) := by
    refine (List.Perm.pairwise_iff ?_ hperm).mpr (pairwise_of_findOverlap_none edits hok)
    intro a b hab
    rw [intersects_comm]
    exact hab
  have hchain : chainFrom 0 (List.insertionSort edLE edits) :=
    chainFrom_of_sorted _ hsorted hpair (fun e he => hlen e (hmem e he)) 0 (fun _ _ => Nat.zero_le _)
  rw [applyEdits_id orig _ 0 hchain (fun e he => hid e (hmem e he))]
  simp

theorem addLine_drop_no_nl (add l : Str) (k : Nat) (ha : '\n' ∉ add) (hl : '\n' ∉ l) :
    '\n' ∉ addLine add (if l = [] then [] else l.drop k) := by
  by_cases he : l = []
  · simp [he, addLine]
  · rw [if_neg he]
    unfold addLine
    by_cases hd : l.drop k = []
    · simp [hd]
    · rw [if_neg hd]
      intro hm
      rcases List.mem_append.mp hm with h1 | h2
      · exact ha h1
      · exact hl (List.drop_subset k l h2)

/-- A successful reindent is exactly the line-wise transform: strip the
prefix from each non-empty line, then prepend the new prefix to each line
that is still non-empty, rejoined with newlines. -/
theorem reindent_ok_eq (text : Str) (adj : Reindent) (r : Str) (hr : reindent text adj = .ok r) :
    r = joinNl ((splitNl text).map
      (fun l => addLine adj.add (if l = [] then [] else l.drop adj.strip.length))) := by
  unfold reindent at hr
  cases hs : stripLines adj.strip (splitNl text) with
  | error e => rw [hs] at hr; exact absurd hr (by simp)
  | ok ls =>
    rw [hs] at hr
    have hall : ∀ l ∈ splitNl text, l ≠ [] → adj.strip.isPrefixOf l = true :=
      stripLines_ok_inv adj.strip (splitNl text) ls hs
    have hok := stripLines_ok adj.strip (splitNl text) hall
    rw [hok] at hs
    injection hs with hs'
    simp only [Except.ok.injEq] at hr
    rw [← hr, ← hs', List.map_map]
    rfl

/-! One loop iteration for a capturing replace, by ladder outcome. -/

theorem step_cap_adjusted (doc : Str) (T : Tiers) (i : Nat) (st : LoopState) (p : PatchRequest)
    (s : Spec) (hop : p.operation = str "replace") (hfc : p.fromClipboard = [])
    (hri : p.reindent = none) (hcap : p.toClipboard ≠ []) (hold : p.oldText ≠ [])
    (hl : ladder doc T p.oldText p.newText = .appliedAdjusted s) :
    step doc T i st p =
      .ok ⟨insertClip (insertClip st.clip p.toClipboard p.oldText) p.toClipboard
          (slice doc s.off (s.off + s.len)),
        st.edits ++ [s.toEdit i], st.errs,
        st.notes ++ [⟨p.toClipboard, slice doc s.off (s.off + s.len)⟩]⟩ := by
  obtain ⟨op, old, new, toC, fromC, rei⟩ := p
  simp only at hop hfc hri hcap hold hl ⊢
  subst hop
  subst hfc
  subst hri
  unfold step stepCore resolveNewText applyReindentE dispatchOp
  rw [if_neg (fun hc : toC ≠ [] ∧ str "replace" ≠ str "replace" => hc.2 rfl),
    if_neg (fun hc : toC ≠ [] ∧ old = [] => hold hc.2)]
  simp only [ne_eq, not_true_eq_false, ite_false, if_false, reduceIte]
  rw [if_neg (by decide : ¬ str "replace" = str "prepend_bof"),
    if_neg (by decide : ¬ str "replace" = str "append_eof"),
    if_neg (by decide : ¬ str "replace" = str "overwrite"),
    if_neg hold, hl]
  simp [updateToClipboard, hcap]

theorem step_cap_trimmed (doc : Str) (T : Tiers) (i : Nat) (st : LoopState) (p : PatchRequest)
    (s : Spec) (hop : p.operation = str "replace") (hfc : p.fromClipboard = [])
    (hri : p.reindent = none) (hcap : p.toClipboard ≠ []) (hold : p.oldText ≠ [])
    (hl : ladder doc T p.oldText p.newText = .appliedTrimmed s) :
    step doc T i st p =
      .ok ⟨insertClip st.clip p.toClipboard p.oldText,
        st.edits ++ [s.toEdit i], st.errs, st.notes⟩ := by
  obtain ⟨op, old, new, toC, fromC, rei⟩ := p
  simp only at hop hfc hri hcap hold hl ⊢
  subst hop
  subst hfc
  subst hri
  unfold step stepCore resolveNewText applyReindentE dispatchOp
  rw [if_neg (fun hc : toC ≠ [] ∧ str "replace" ≠ str "replace" => hc.2 rfl),
    if_neg (fun hc : toC ≠ [] ∧ old = [] => hold hc.2)]
  simp only [ne_eq, not_true_eq_false, ite_false, if_false, reduceIte]
  rw [if_neg (by decide : ¬ str "replace" = str "prepend_bof"),
    if_neg (by decide : ¬ str "replace" = str "append_eof"),
    if_neg (by decide : ¬ str "replace" = str "overwrite"),
    if_neg hold, hl]
  simp [hcap]

theorem patchRun_cap_adjusted (doc : Str) (T : Tiers) (old nt cap : Str) (s : Spec)
    (clip : Clipboards) (g : Bool) (hc : Option (List Str)) (hcap : cap ≠ []) (hold : old ≠ [])
    (hl : ladder doc T old nt = .appliedAdjusted s) :
    patchRun (some doc) [mkReplaceCap old nt cap] clip T g hc =
      .committed (slice doc 0 s.off ++ s.repl ++ doc.drop (s.off + s.len))
        (g && IsAutogeneratedGoFile doc hc) [⟨cap, slice doc s.off (s.off + s.len)⟩]
        (insertClip (insertClip clip cap old) cap (slice doc s.off (s.off + s.len))) := by
  have hstep := step_cap_adjusted doc T 0 ⟨clip, [], [], []⟩ (mkReplaceCap old nt cap) s
    rfl rfl rfl hcap hold hl
  have hloop : runLoop doc T 0 ⟨clip, [], [], []⟩ [mkReplaceCap old nt cap] =
      .ok ⟨insertClip (insertClip clip cap old) cap (slice doc s.off (s.off + s.len)),
        [s.toEdit 0], [], [⟨cap, slice doc s.off (s.off + s.len)⟩]⟩ := by
    rw [runLoop, hstep]
    rfl
  rw [patchRun_some_ne doc _ clip T g hc (by simp),
    patchCore_eq_of_runLoop_ok doc _ clip T g hc _ hloop]
  simp [materialize_single, Spec.toEdit]

theorem patchRun_cap_trimmed (doc : Str) (T : Tiers) (old nt cap : Str) (s : Spec)
    (clip : Clipboards) (g : Bool) (hc : Option (List Str)) (hcap : cap ≠ []) (hold : old ≠ [])
    (hl : ladder doc T old nt = .appliedTrimmed s) :
    patchRun (some doc) [mkReplaceCap old nt cap] clip T g hc =
      .committed (slice doc 0 s.off ++ s.repl ++ doc.drop (s.off + s.len))
        (g && IsAutogeneratedGoFile doc hc) [] (insertClip clip cap old) := by
  have hstep := step_cap_trimmed doc T 0 ⟨clip, [], [], []⟩ (mkReplaceCap old nt cap) s
    rfl rfl rfl hcap hold hl
  have hloop : runLoop doc T 0 ⟨clip, [], [], []⟩ [mkReplaceCap old nt cap] =
      .ok ⟨insertClip clip cap old, [s.toEdit 0], [], []⟩ := by
    rw [runLoop, hstep]
    rfl
  rw [patchRun_some_ne doc _ clip T g hc (by simp),
    patchCore_eq_of_runLoop_ok doc _ clip T g hc _ hloop]
  simp [materialize_single, Spec.toEdit]

/-- The batch result does not depend on the autogenerated inputs except
through the committed warning flag. -/
theorem patchCore_stripWarn (orig : Str) (ps : List PatchRequest) (clip : Clipboards) (T : Tiers)
    (g g' : Bool) (hc hc' : Option (List Str)) :
    stripWarn (patchCore orig ps clip T g hc) = stripWarn (patchCore orig ps clip T g' hc') := by
  cases hr : runLoop orig T 0 ⟨clip, [], [], []⟩ ps with
  | error e =>
    rw [patchCore_eq_of_runLoop_error orig ps clip T g hc e hr,
      patchCore_eq_of_runLoop_error orig ps clip T g' hc' e hr]
  | ok st =>
    rw [patchCore_eq_of_runLoop_ok orig ps clip T g hc st hr,
      patchCore_eq_of_runLoop_ok orig ps clip T g' hc' st hr]
    by_cases he : st.errs.isEmpty
    · rw [if_pos he, if_pos he]
      cases hm : materialize orig st.edits with
      | error p => rfl
      | ok bytes => rfl
    · rw [if_neg he, if_neg he]

/-- The edits registered by a batch of no-op replaces (new text equal to
old text, each occurring exactly once) all replace their own span by its
original content. -/
theorem editsOf_noop_props (doc : Str) (T : Tiers) :
    ∀ (ops : List PatchRequest) (i : Nat),
    (∀ p ∈ ops, p.newText = p.oldText ∧ countOccurrences doc p.oldText = 1 ∧ p.oldText ≠ []) →
    ∀ e ∈ editsOf doc T i ops,
      e.off + e.len ≤ doc.length ∧ e.repl = slice doc e.off (e.off + e.len) ∧ 1 ≤ e.len
  | [], _, _, e, he => absurd he (List.not_mem_nil e)
  | p :: ps, i, h, e, he => by
    obtain ⟨hnew, hcount, hold⟩ := h p (List.mem_cons_self _ _)
    obtain ⟨j, hj⟩ := occs_singleton_of_count_one doc p.oldText hcount
    obtain ⟨hpre, hb⟩ := occ_bounds doc p.oldText j hj
    rw [editsOf] at he
    rw [show ladderSpec doc T p.oldText p.newText = some ⟨j, p.oldText.length, p.newText⟩ from by
      unfold ladderSpec; rw [ladder_count_one doc T p.oldText p.newText j hj]] at he
    rcases List.mem_append.mp he with h1 | h2
    · simp only [Option.map_some', Option.toList_some, List.mem_singleton] at h1
      subst h1
      refine ⟨hb, ?_, List.length_pos.mpr hold⟩
      show p.newText = slice doc j (j + p.oldText.length)
      rw [hnew, slice_eq_of_isPrefixOf doc p.oldText j hpre]
    · exact editsOf_noop_props doc T ps (i + 1)
        (fun q hq => h q (List.mem_cons_of_mem _ hq)) e h2

/-! The claims. -/

/-- C10: a batch whose operation list is empty is rejected with the
no-patches error before the target file is read: the result is literally
the same for every file state (missing or any contents), so no file is
read, created or written (only `committed` writes), and the clipboard
store is untouched. -/
theorem C10_empty_batch (file : Option Str) (clip : Clipboards) (T : Tiers) (g : Bool)
    (hc : Option (List Str)) :
    patchRun file [] clip T g hc = .structuralError .noPatches clip := rfl

/-- C1: for a batch of replace operations (no clipboard substitution or
reindent, non-empty old texts), when at least one operation fails to
match, `patchRun` records each failing operation's matching error,
keeps resolving the remaining operations, and returns a rejection (never
`committed`, so nothing is written) whose aggregated error list is
exactly one entry per failing operation, in operation order
(`errsOf` collects exactly the failing operations' errors). -/
theorem C1_batch_error_aggregation (doc : Str) (T : Tiers) (ops : List PatchRequest)
    (clip : Clipboards) (g : Bool) (hc : Option (List Str))
    (hplain : ∀ p ∈ ops, plainReplace p) (hne : errsOf doc T ops ≠ []) :
    ∃ notes clip', patchRun (some doc) ops clip T g hc =
      .rejected (errsOf doc T ops) notes clip' := by
  obtain ⟨c, n, hloop⟩ := runLoop_plain doc T ops 0 ⟨clip, [], [], []⟩ hplain
  have hopne : ops ≠ [] := by
    intro h
    subst h
    exact hne (by simp [errsOf])
  refine ⟨n, c, ?_⟩
  rw [patchRun_some_ne doc ops clip T g hc hopne,
    patchCore_eq_of_runLoop_ok doc ops clip T g hc _ hloop]
  simp only [List.nil_append]
  rw [if_neg (by simp [List.isEmpty_iff, hne])]

/-- Witness for C1 at the spec's own example shape: three replaces where
only operation 2 fails, yielding a rejection whose error list has exactly
one entry, for operation 2. -/
theorem C1_batch_error_aggregation_witness :
    ∃ notes clip', patchRun (some (str "abc"))
      [mkReplace (str "a") (str "x"), mkReplace (str "zz") (str "y"),
        mkReplace (str "c") (str "w")]
      [] noTiers false none = .rejected [.notFound (str "zz")] notes clip' := by
  have h := C1_batch_error_aggregation (str "abc") noTiers
    [mkReplace (str "a") (str "x"), mkReplace (str "zz") (str "y"), mkReplace (str "c") (str "w")]
    [] false none (by decide) (by decide)
  exact h

/-- C2: the match ladder tries its five tiers strictly in order.  A
tier-1 count of exactly one succeeds immediately at the occurrence's span
and, in a batch, applies the edit exactly there; a tier-1 count of two or
more stops the ladder as ambiguous for every possible behaviour of the
looser tiers (no fall-through); a count of zero falls through to tier 2,
a tier returning nothing falls through to the next, and tier 5's success
is marked as trimmed (distinguished from tiers 2 to 4). -/
theorem C2_match_ladder_order :
    (∀ (doc : Str) (T : Tiers) (old nt : Str), countOccurrences doc old = 1 →
      ∃ j, occs doc old = [j] ∧ old.isPrefixOf (doc.drop j) = true ∧
        j + old.length ≤ doc.length ∧
        ladder doc T old nt = .appliedExact ⟨j, old.length, nt⟩) ∧
    (∀ (doc : Str) (T : Tiers) (old nt : Str), 2 ≤ countOccurrences doc old →
      ladder doc T old nt = .ambiguous) ∧
    (∀ (doc : Str) (T : Tiers) (old nt : Str) (s : Spec), countOccurrences doc old = 0 →
      T.t2 doc old nt = some s → ladder doc T old nt = .appliedAdjusted s) ∧
    (∀ (doc : Str) (T : Tiers) (old nt : Str) (s : Spec), countOccurrences doc old = 0 →
      T.t2 doc old nt = none → T.t3 doc old nt = some s →
      ladder doc T old nt = .appliedAdjusted s) ∧
    (∀ (doc : Str) (T : Tiers) (old nt : Str) (s : Spec), countOccurrences doc old = 0 →
      T.t2 doc old nt = none → T.t3 doc old nt = none → T.t4 doc old nt = some s →
      ladder doc T old nt = .appliedAdjusted s) ∧
    (∀ (doc : Str) (T : Tiers) (old nt : Str) (s : Spec), countOccurrences doc old = 0 →
      T.t2 doc old nt = none → T.t3 doc old nt = none → T.t4 doc old nt = none →
      T.t5 doc old nt = some s → ladder doc T old nt = .appliedTrimmed s) ∧
    (∀ (doc : Str) (T : Tiers) (old nt : Str), countOccurrences doc old = 0 →
      T.t2 doc old nt = none → T.t3 doc old nt = none → T.t4 doc old nt = none →
      T.t5 doc old nt = none → ladder doc T old nt = .noMatch) ∧
    (∀ (doc : Str) (T : Tiers) (old nt : Str) (j : Nat) (clip : Clipboards) (g : Bool)
      (hc : Option (List Str)), old ≠ [] → occs doc old = [j] →
      patchRun (some doc) [mkReplace old nt] clip T g hc =
        .committed (slice doc 0 j ++ nt ++ doc.drop (j + old.length))
          (g && IsAutogeneratedGoFile doc hc) [] clip) := by
  refine ⟨?_, ?_, ladder_t2, ladder_t3, ladder_t4, ladder_t5, ladder_all_none, ?_⟩
  · intro doc T old nt h1
    obtain ⟨j, hj⟩ := occs_singleton_of_count_one doc old h1
    obtain ⟨hpre, hb⟩ := occ_bounds doc old j hj
    exact ⟨j, hj, hpre, hb, ladder_count_one doc T old nt j hj⟩
  · intro doc T old nt h2
    exact ladder_count_ge2 doc T old nt h2
  · intro doc T old nt j clip g hc hne hocc
    have hplain : ∀ p ∈ [mkReplace old nt], plainReplace p ∧ p.toClipboard = [] := by
      intro p hp
      rw [List.mem_singleton] at hp
      subst hp
      exact ⟨⟨rfl, rfl, rfl, hne⟩, rfl⟩
    have hloop := runLoop_plain_nocap doc T [mkReplace old nt] 0 ⟨clip, [], [], []⟩ hplain
    have hedits : editsOf doc T 0 [mkReplace old nt] = [⟨0, j, old.length, nt⟩] := by
      simp [editsOf, ladderSpec, mkReplace, ladder_count_one doc T old nt j hocc, Spec.toEdit]
    have herrs : errsOf doc T [mkReplace old nt] = [] := by
      simp [errsOf, ladderErr, mkReplace, ladder_count_one doc T old nt j hocc]
    rw [patchRun_some_ne doc _ clip T g hc (by simp),
      patchCore_eq_of_runLoop_ok doc _ clip T g hc _ hloop]
    simp only [hedits, herrs, List.nil_append, List.append_nil, List.isEmpty_nil, if_true]
    rw [materialize_single]

/-- Witness for C2: each conjunct exercised on concrete inputs, with
tier functions that would match chosen for the ambiguous case so the
absence of fall-through is visible. -/
theorem C2_match_ladder_order_witness :
    ladder (str "abc") noTiers (str "b") (str "X") = .appliedExact ⟨1, 1, str "X"⟩ ∧
    ladder (str "aa") ⟨fun _ _ _ => some ⟨0, 1, str "R"⟩, fun _ _ _ => some ⟨0, 1, str "R"⟩,
      fun _ _ _ => some ⟨0, 1, str "R"⟩, fun _ _ _ => some ⟨0, 1, str "R"⟩⟩ (str "a") (str "X") =
      .ambiguous ∧
    ladder (str "ab") ⟨fun _ _ _ => some ⟨0, 1, str "R"⟩, fun _ _ _ => none, fun _ _ _ => none,
      fun _ _ _ => none⟩ (str "zz") (str "X") = .appliedAdjusted ⟨0, 1, str "R"⟩ ∧
    ladder (str "ab") ⟨fun _ _ _ => none, fun _ _ _ => some ⟨0, 1, str "S"⟩, fun _ _ _ => none,
      fun _ _ _ => none⟩ (str "zz") (str "X") = .appliedAdjusted ⟨0, 1, str "S"⟩ ∧
    ladder (str "ab") ⟨fun _ _ _ => none, fun _ _ _ => none, fun _ _ _ => some ⟨0, 1, str "U"⟩,
      fun _ _ _ => none⟩ (str "zz") (str "X") = .appliedAdjusted ⟨0, 1, str "U"⟩ ∧
    ladder (str "ab") ⟨fun _ _ _ => none, fun _ _ _ => none, fun _ _ _ => none,
      fun _ _ _ => some ⟨0, 1, str "V"⟩⟩ (str "zz") (str "X") = .appliedTrimmed ⟨0, 1, str "V"⟩ ∧
    ladder (str "ab") noTiers (str "zz") (str "X") = .noMatch ∧
    patchRun (some (str "abc")) [mkReplace (str "b") (str "X")] [] noTiers false none =
      .committed (str "aXc") false [] [] := by
  have h1 := C2_match_ladder_order.1 (str "abc") noTiers (str "b") (str "X") (by decide)
  obtain ⟨j, hj, _, _, hl⟩ := h1
  have hocc : occs (str "abc") (str "b") = [1] := by decide
  rw [hocc] at hj
  injection hj with hj1 _
  subst hj1
  refine ⟨hl, ?_, ?_, ?_, ?_, ?_, ?_, ?_⟩
  · exact C2_match_ladder_order.2.1 (str "aa") _ (str "a") (str "X") (by decide)
  · exact C2_match_ladder_order.2.2.1 (str "ab") _ (str "zz") (str "X") ⟨0, 1, str "R"⟩
      (by decide) rfl
  · exact C2_match_ladder_order.2.2.2.1 (str "ab") _ (str "zz") (str "X") ⟨0, 1, str "S"⟩
      (by decide) rfl rfl
  · exact C2_match_ladder_order.2.2.2.2.1 (str "ab") _ (str "zz") (str "X") ⟨0, 1, str "U"⟩
      (by decide) rfl rfl rfl
  · exact C2_match_ladder_order.2.2.2.2.2.1 (str "ab") _ (str "zz") (str "X") ⟨0, 1, str "V"⟩
      (by decide) rfl rfl rfl rfl
  · exact C2_match_ladder_order.2.2.2.2.2.2.1 (str "ab") noTiers (str "zz") (str "X")
      (by decide) rfl rfl rfl rfl
  · exact C2_match_ladder_order.2.2.2.2.2.2.2 (str "abc") noTiers (str "b") (str "X") 1 []
      false none (by decide) (by decide)

/-- C4 (counterexample to the claim as stated): reindent does not always
preserve the presence or absence of a terminal newline, nor the line
count.  Stripping `"  "` from `"  a\n  "` (no terminal newline) yields
`"a\n"` (terminal newline appears, because the final line consists
entirely of the stripped prefix and is then skipped by the add pass);
adding a prefix that itself contains a newline turns one line into two. -/
theorem C4_reindent_counterexample :
    reindent (str "  a\n  ") ⟨str "  ", []⟩ = .ok (str "a\n") ∧
    endsNl (str "  a\n  ") = false ∧ endsNl (str "a\n") = true ∧
    reindent (str "a") ⟨[], str "x\n"⟩ = .ok (str "x\na") ∧
    (splitNl (str "a")).length = 1 ∧ (splitNl (str "x\na")).length = 2 :=
  ⟨rfl, rfl, rfl, rfl, rfl, rfl⟩

/-- C4 (amended): reindent removes `strip` as a required prefix from each
non-empty line, succeeding exactly when every non-empty line carries the
prefix and otherwise failing with the first offending line and the
expected prefix; it prepends `add` to every line that is non-empty after
stripping, leaving empty lines untouched; the result is the line-wise
image rejoined with newlines.  Provided `add` contains no newline the
line count is preserved exactly; provided additionally the final line
does not strip to empty, the presence or absence of a terminal newline is
preserved.  The claim's two concrete examples hold. -/
theorem C4_reindent_amended :
    (∀ (text : Str) (adj : Reindent),
      (∃ r, reindent text adj = .ok r) ↔
        ∀ l ∈ splitNl text, l ≠ [] → adj.strip.isPrefixOf l = true) ∧
    (∀ (text : Str) (adj : Reindent) (la : List Str) (l : Str) (lb : List Str),
      splitNl text = la ++ l :: lb → (∀ x ∈ la, x = [] ∨ adj.strip.isPrefixOf x = true) →
      l ≠ [] → adj.strip.isPrefixOf l = false →
      reindent text adj = .error (l, adj.strip)) ∧
    (∀ (text : Str) (adj : Reindent) (r : Str), reindent text adj = .ok r →
      r = joinNl ((splitNl text).map
        (fun l => addLine adj.add (if l = [] then [] else l.drop adj.strip.length)))) ∧
    (∀ (text : Str) (adj : Reindent) (r : Str), reindent text adj = .ok r → '\n' ∉ adj.add →
      (splitNl r).length = (splitNl text).length) ∧
    (∀ (text : Str) (adj : Reindent) (r : Str), reindent text adj = .ok r → '\n' ∉ adj.add →
      (∀ l, (splitNl text).getLast? = some l → l ≠ [] → l.drop adj.strip.length ≠ []) →
      endsNl r = endsNl text) ∧
    (reindent (str "  a\n\n  b\n") ⟨str "  ", []⟩ = .ok (str "a\n\nb\n") ∧
      reindent (str "a\n") ⟨str "  ", []⟩ = .error (str "a", str "  ")) := by
  refine ⟨?_, ?_, reindent_ok_eq, ?_, ?_, rfl, rfl⟩
  · intro text adj
    constructor
    · rintro ⟨r, hr⟩
      unfold reindent at hr
      cases hs : stripLines adj.strip (splitNl text) with
      | error e => rw [hs] at hr; exact absurd hr (by simp)
      | ok ls => exact stripLines_ok_inv adj.strip (splitNl text) ls hs
    · intro hall
      refine ⟨joinNl (((splitNl text).map
        (fun l => if l = [] then [] else l.drop adj.strip.length)).map (addLine adj.add)), ?_⟩
      unfold reindent
      rw [stripLines_ok adj.strip (splitNl text) hall]
  · intro text adj la l lb hsplit hgood hl hpf
    unfold reindent
    rw [hsplit, stripLines_error_first adj.strip la l lb hgood hl hpf]
  · intro text adj r hr hadd
    have hfree : ∀ l ∈ (splitNl text).map
        (fun l => addLine adj.add (if l = [] then [] else l.drop adj.strip.length)), '\n' ∉ l := by
      intro l hl
      obtain ⟨l0, hl0, rfl⟩ := List.mem_map.mp hl
      exact addLine_drop_no_nl adj.add l0 adj.strip.length hadd (no_nl_mem_splitNl text l0 hl0)
    rw [reindent_ok_eq text adj r hr, splitNl_joinNl _ (by simp [splitNl]) hfree,
      List.length_map]
  · intro text adj r hr hadd hlast
    have hfree : ∀ l ∈ (splitNl text).map
        (fun l => addLine adj.add (if l = [] then [] else l.drop adj.strip.length)), '\n' ∉ l := by
      intro l hl
      obtain ⟨l0, hl0, rfl⟩ := List.mem_map.mp hl
      exact addLine_drop_no_nl adj.add l0 adj.strip.length hadd (no_nl_mem_splitNl text l0 hl0)
    have h1 : endsNl r = true ↔
        2 ≤ ((splitNl text).map
          (fun l => addLine adj.add (if l = [] then [] else l.drop adj.strip.length))).length ∧
        ((splitNl text).map
          (fun l => addLine adj.add (if l = [] then [] else l.drop adj.strip.length))).getLast? =
          some [] := by
      rw [reindent_ok_eq text adj r hr]
      exact endsNl_joinNl _ hfree
    have h2 := endsNl_joinNl (splitNl text) (no_nl_mem_splitNl text)
    rw [joinNl_splitNl text] at h2
    rw [Bool.eq_iff_iff, h1, h2, List.length_map, List.getLast?_map]
    cases hgl : (splitNl text).getLast? with
    | none => simp
    | some l =>
      simp only [Option.map_some']
      constructor
      · rintro ⟨hlen, hsome⟩
        refine ⟨hlen, ?_⟩
        injection hsome with hfl
        by_cases he : l = []
        · rw [he]
        · exfalso
          have hd := hlast l hgl he
          rw [if_neg he] at hfl
          unfold addLine at hfl
          rw [if_neg hd] at hfl
          exact (by simp [hd] : adj.add ++ l.drop adj.strip.length ≠ []) hfl
      · rintro ⟨hlen, hsome⟩
        injection hsome with hl0
        subst hl0
        exact ⟨hlen, rfl⟩

/-- Witness for C4 (amended): each part exercised at a concrete input. -/
theorem C4_reindent_amended_witness :
    (∃ r, reindent (str "  a") ⟨str "  ", []⟩ = .ok r) ∧
    reindent (str "a\nb") ⟨str "  ", []⟩ = .error (str "a", str "  ") ∧
    str "a" = joinNl ((splitNl (str " a")).map
      (fun l => addLine ([] : Str) (if l = [] then [] else l.drop (str " ").length))) ∧
    (splitNl (str " a\n b")).length = (splitNl (str "a\nb")).length ∧
    endsNl (str "a") = endsNl (str "  a") := by
  refine ⟨?_, ?_, ?_, ?_, ?_⟩
  · exact (C4_reindent_amended.1 (str "  a") ⟨str "  ", []⟩).mpr (by decide)
  · exact C4_reindent_amended.2.1 (str "a\nb") ⟨str "  ", []⟩ [] (str "a") [str "b"]
      (by decide) (by decide) (by decide) (by decide)
  · exact C4_reindent_amended.2.2.1 (str " a") ⟨str " ", []⟩ (str "a") rfl
  · exact C4_reindent_amended.2.2.2.1 (str "a\nb") ⟨[], str " "⟩ (str " a\n b") rfl (by decide)
  · exact C4_reindent_amended.2.2.2.2.1 (str "  a") ⟨str "  ", []⟩ (str "a") rfl (by decide)
      (by decide)

/-- C3: each structural error aborts the batch at once, with that single
error and the clipboard store as mutated so far; the remaining operations
are never processed (the result does not depend on them), previously
collected matching errors are not aggregated into it (the result does not
depend on the accumulated error list either), and the result is never
`committed`, so nothing is written.  The seven conditions: `toClipboard`
on a non-replace, `toClipboard` with empty old text, a `fromClipboard`
miss, a reindent prefix mismatch, an empty old text on a replace, an
unrecognized operation kind, and a missing file with a non-creating
operation (checked before the loop, rejecting the whole batch). -/
theorem C3_structural_errors_abort :
    (∀ (doc : Str) (T : Tiers) (i : Nat) (st : LoopState) (p : PatchRequest)
      (rest : List PatchRequest), p.toClipboard ≠ [] → p.operation ≠ str "replace" →
      runLoop doc T i st (p :: rest) = .error (.toClipboardNonReplace p.toClipboard, st.clip)) ∧
    (∀ (doc : Str) (T : Tiers) (i : Nat) (st : LoopState) (p : PatchRequest)
      (rest : List PatchRequest), p.toClipboard ≠ [] → p.operation = str "replace" →
      p.oldText = [] →
      runLoop doc T i st (p :: rest) = .error (.toClipboardEmptyOld p.toClipboard, st.clip)) ∧
    (∀ (doc : Str) (T : Tiers) (i : Nat) (st : LoopState) (p : PatchRequest)
      (rest : List PatchRequest), p.toClipboard = [] → p.fromClipboard ≠ [] →
      lookupClip st.clip p.fromClipboard = none →
      runLoop doc T i st (p :: rest) = .error (.clipboardMiss p.fromClipboard, st.clip)) ∧
    (∀ (doc : Str) (T : Tiers) (i : Nat) (st : LoopState) (p : PatchRequest)
      (rest : List PatchRequest) (adj : Reindent) (l s : Str), p.toClipboard = [] →
      p.fromClipboard = [] → p.reindent = some adj → reindent p.newText adj = .error (l, s) →
      runLoop doc T i st (p :: rest) = .error (.reindentErr l s, st.clip)) ∧
    (∀ (doc : Str) (T : Tiers) (i : Nat) (st : LoopState) (p : PatchRequest)
      (rest : List PatchRequest), p.toClipboard = [] → p.fromClipboard = [] →
      p.reindent = none → p.operation = str "replace" → p.oldText = [] →
      runLoop doc T i st (p :: rest) = .error (.emptyOldText i, st.clip)) ∧
    (∀ (doc : Str) (T : Tiers) (i : Nat) (st : LoopState) (p : PatchRequest)
      (rest : List PatchRequest), p.toClipboard = [] → p.fromClipboard = [] →
      p.reindent = none → p.operation ≠ str "prepend_bof" → p.operation ≠ str "append_eof" →
      p.operation ≠ str "overwrite" → p.operation ≠ str "replace" →
      runLoop doc T i st (p :: rest) = .error (.unrecognizedOp p.operation, st.clip)) ∧
    (∀ (ps : List PatchRequest) (clip : Clipboards) (T : Tiers) (g : Bool)
      (hc : Option (List Str)), ps ≠ [] → (∃ p ∈ ps, creatingOp p = false) →
      patchRun none ps clip T g hc = .structuralError .fileMissing clip) ∧
    (∀ (doc : Str) (ps : List PatchRequest) (clip : Clipboards) (T : Tiers) (g : Bool)
      (hc : Option (List Str)) (e : StructErr) (c : Clipboards), ps ≠ [] →
      runLoop doc T 0 ⟨clip, [], [], []⟩ ps = .error (e, c) →
      patchRun (some doc) ps clip T g hc = .structuralError e c) := by
  refine ⟨?_, ?_, ?_, ?_, ?_, ?_, ?_, ?_⟩
  · intro doc T i st p rest h1 h2
    rw [runLoop, step_toClipboard_nonreplace doc T i st p h1 h2]
  · intro doc T i st p rest h1 hop hold
    rw [runLoop, step_toClipboard_emptyOld doc T i st p h1 hop hold]
  · intro doc T i st p rest htc hfc hmiss
    rw [runLoop, step_clipboardMiss doc T i st p htc hfc hmiss]
  · intro doc T i st p rest adj l s htc hfc hri herr
    rw [runLoop, step_reindentErr doc T i st p adj l s htc hfc hri herr]
  · intro doc T i st p rest htc hfc hri hop hold
    rw [runLoop, step_emptyOld doc T i st p htc hfc hri hop hold]
  · intro doc T i st p rest htc hfc hri h1 h2 h3 h4
    rw [runLoop, step_unrecognized doc T i st p htc hfc hri h1 h2 h3 h4]
  · intro ps clip T g hc hne hbad
    obtain ⟨p, hp, hcreate⟩ := hbad
    cases ps with
    | nil => exact absurd rfl hne
    | cons q qs =>
      have h2 : patchRun none (q :: qs) clip T g hc =
          (if (q :: qs).all creatingOp then patchCore [] (q :: qs) clip T g hc
            else .structuralError .fileMissing clip) := rfl
      rw [h2, if_neg (fun hall => absurd (List.all_eq_true.mp hall p hp) (by simp [hcreate]))]
  · intro doc ps clip T g hc e c hne hrl
    rw [patchRun_some_ne doc ps clip T g hc hne,
      patchCore_eq_of_runLoop_error doc ps clip T g hc (e, c) hrl]

/-- Witness for C3: each of the seven structural conditions triggered at
a concrete input, with a non-empty rest of the batch where applicable. -/
theorem C3_structural_errors_abort_witness :
    runLoop (str "ab") noTiers 0 ⟨[], [], [], []⟩
      [⟨str "append_eof", [], str "x", str "c", [], none⟩, mkReplace (str "a") (str "y")] =
      .error (.toClipboardNonReplace (str "c"), []) ∧
    runLoop (str "ab") noTiers 0 ⟨[], [], [], []⟩
      [⟨str "replace", [], str "x", str "c", [], none⟩, mkReplace (str "a") (str "y")] =
      .error (.toClipboardEmptyOld (str "c"), []) ∧
    runLoop (str "ab") noTiers 0 ⟨[], [], [], []⟩
      [⟨str "replace", str "a", [], [], str "nope", none⟩, mkReplace (str "a") (str "y")] =
      .error (.clipboardMiss (str "nope"), []) ∧
    runLoop (str "ab") noTiers 0 ⟨[], [], [], []⟩
      [⟨str "replace", str "a", str "qq", [], [], some ⟨str "  ", []⟩⟩,
        mkReplace (str "a") (str "y")] =
      .error (.reindentErr (str "qq") (str "  "), []) ∧
    runLoop (str "ab") noTiers 0 ⟨[], [], [], []⟩
      [mkReplace [] (str "x"), mkReplace (str "a") (str "y")] =
      .error (.emptyOldText 0, []) ∧
    runLoop (str "ab") noTiers 0 ⟨[], [], [], []⟩
      [mkOp (str "bogus") (str "x"), mkReplace (str "a") (str "y")] =
      .error (.unrecognizedOp (str "bogus"), []) ∧
    patchRun none [mkReplace (str "a") (str "b")] [] noTiers false none =
      .structuralError .fileMissing [] ∧
    patchRun (some (str "ab")) [mkOp (str "bogus") (str "x")] [] noTiers false none =
      .structuralError (.unrecognizedOp (str "bogus")) [] := by
  refine ⟨?_, ?_, ?_, ?_, ?_, ?_, ?_, ?_⟩
  · exact C3_structural_errors_abort.1 (str "ab") noTiers 0 ⟨[], [], [], []⟩ _ _
      (by decide) (by decide)
  · exact C3_structural_errors_abort.2.1 (str "ab") noTiers 0 ⟨[], [], [], []⟩ _ _
      (by decide) rfl rfl
  · exact C3_structural_errors_abort.2.2.1 (str "ab") noTiers 0 ⟨[], [], [], []⟩ _ _
      rfl (by decide) rfl
  · exact C3_structural_errors_abort.2.2.2.1 (str "ab") noTiers 0 ⟨[], [], [], []⟩ _ _
      ⟨str "  ", []⟩ (str "qq") (str "  ") rfl rfl rfl rfl
  · exact C3_structural_errors_abort.2.2.2.2.1 (str "ab") noTiers 0 ⟨[], [], [], []⟩ _ _
      rfl rfl rfl rfl rfl
  · exact C3_structural_errors_abort.2.2.2.2.2.1 (str "ab") noTiers 0 ⟨[], [], [], []⟩ _ _
      rfl rfl rfl (by decide) (by decide) (by decide) (by decide)
  · exact C3_structural_errors_abort.2.2.2.2.2.2.1 [mkReplace (str "a") (str "b")] [] noTiers
      false none (by simp) ⟨mkReplace (str "a") (str "b"), List.mem_singleton.mpr rfl, by decide⟩
  · exact C3_structural_errors_abort.2.2.2.2.2.2.2 (str "ab") [mkOp (str "bogus") (str "x")]
      [] noTiers false none (.unrecognizedOp (str "bogus")) [] (by simp) rfl

/-- C5: a capturing replace that succeeds via tier 2, 3 or 4 overwrites
the clipboard (previously holding the verbatim pre-match old text) with
the actual matched substring of the original document, and the committed
batch result carries a note with that clipboard name and its new
contents; a success via tier 5 leaves the clipboard at the verbatim
pre-match old text and produces no note. -/
theorem C5_clipboard_recapture (doc : Str) (T : Tiers) (old nt cap : Str) (s : Spec)
    (clip : Clipboards) (g : Bool) (hc : Option (List Str)) (hcap : cap ≠ []) (hold : old ≠ [])
    (h0 : countOccurrences doc old = 0) :
    (T.t2 doc old nt = some s →
      patchRun (some doc) [mkReplaceCap old nt cap] clip T g hc =
        .committed (slice doc 0 s.off ++ s.repl ++ doc.drop (s.off + s.len))
          (g && IsAutogeneratedGoFile doc hc) [⟨cap, slice doc s.off (s.off + s.len)⟩]
          (insertClip (insertClip clip cap old) cap (slice doc s.off (s.off + s.len)))) ∧
    (T.t2 doc old nt = none → T.t3 doc old nt = some s →
      patchRun (some doc) [mkReplaceCap old nt cap] clip T g hc =
        .committed (slice doc 0 s.off ++ s.repl ++ doc.drop (s.off + s.len))
          (g && IsAutogeneratedGoFile doc hc) [⟨cap, slice doc s.off (s.off + s.len)⟩]
          (insertClip (insertClip clip cap old) cap (slice doc s.off (s.off + s.len)))) ∧
    (T.t2 doc old nt = none → T.t3 doc old nt = none → T.t4 doc old nt = some s →
      patchRun (some doc) [mkReplaceCap old nt cap] clip T g hc =
        .committed (slice doc 0 s.off ++ s.repl ++ doc.drop (s.off + s.len))
          (g && IsAutogeneratedGoFile doc hc) [⟨cap, slice doc s.off (s.off + s.len)⟩]
          (insertClip (insertClip clip cap old) cap (slice doc s.off (s.off + s.len)))) ∧
    (T.t2 doc old nt = none → T.t3 doc old nt = none → T.t4 doc old nt = none →
      T.t5 doc old nt = some s →
      patchRun (some doc) [mkReplaceCap old nt cap] clip T g hc =
        .committed (slice doc 0 s.off ++ s.repl ++ doc.drop (s.off + s.len))
          (g && IsAutogeneratedGoFile doc hc) [] (insertClip clip cap old)) := by
  refine ⟨fun h2 => ?_, fun h2 h3 => ?_, fun h2 h3 h4 => ?_, fun h2 h3 h4 h5 => ?_⟩
  · exact patchRun_cap_adjusted doc T old nt cap s clip g hc hcap hold
      (ladder_t2 doc T old nt s h0 h2)
  · exact patchRun_cap_adjusted doc T old nt cap s clip g hc hcap hold
      (ladder_t3 doc T old nt s h0 h2 h3)
  · exact patchRun_cap_adjusted doc T old nt cap s clip g hc hcap hold
      (ladder_t4 doc T old nt s h0 h2 h3 h4)
  · exact patchRun_cap_trimmed doc T old nt cap s clip g hc hcap hold
      (ladder_t5 doc T old nt s h0 h2 h3 h4 h5)

/-- Witness for C5: a capturing replace on `"ab"` whose old text does not
occur, matched by each recovery tier in turn.  Tiers 2 to 4 leave the
clipboard at the matched document text `"a"` with a note; tier 5 leaves
it at the verbatim `"qq"` with no note. -/
theorem C5_clipboard_recapture_witness :
    patchRun (some (str "ab")) [mkReplaceCap (str "qq") (str "R") (str "c")] []
      ⟨fun _ _ _ => some ⟨0, 1, str "X"⟩, fun _ _ _ => none, fun _ _ _ => none,
        fun _ _ _ => none⟩ false none =
      .committed (str "Xb") false [⟨str "c", str "a"⟩]
        [(str "c", str "a"), (str "c", str "qq")] ∧
    patchRun (some (str "ab")) [mkReplaceCap (str "qq") (str "R") (str "c")] []
      ⟨fun _ _ _ => none, fun _ _ _ => some ⟨0, 1, str "X"⟩, fun _ _ _ => none,
        fun _ _ _ => none⟩ false none =
      .committed (str "Xb") false [⟨str "c", str "a"⟩]
        [(str "c", str "a"), (str "c", str "qq")] ∧
    patchRun (some (str "ab")) [mkReplaceCap (str "qq") (str "R") (str "c")] []
      ⟨fun _ _ _ => none, fun _ _ _ => none, fun _ _ _ => some ⟨0, 1, str "X"⟩,
        fun _ _ _ => none⟩ false none =
      .committed (str "Xb") false [⟨str "c", str "a"⟩]
        [(str "c", str "a"), (str "c", str "qq")] ∧
    patchRun (some (str "ab")) [mkReplaceCap (str "qq") (str "R") (str "c")] []
      ⟨fun _ _ _ => none, fun _ _ _ => none, fun _ _ _ => none,
        fun _ _ _ => some ⟨0, 1, str "X"⟩⟩ false none =
      .committed (str "Xb") false [] [(str "c", str "qq")] := by
  refine ⟨?_, ?_, ?_, ?_⟩
  · exact (C5_clipboard_recapture (str "ab") _ (str "qq") (str "R") (str "c") ⟨0, 1, str "X"⟩
      [] false none (by decide) (by decide) (by decide)).1 rfl
  · exact (C5_clipboard_recapture (str "ab") _ (str "qq") (str "R") (str "c") ⟨0, 1, str "X"⟩
      [] false none (by decide) (by decide) (by decide)).2.1 rfl rfl
  · exact (C5_clipboard_recapture (str "ab") _ (str "qq") (str "R") (str "c") ⟨0, 1, str "X"⟩
      [] false none (by decide) (by decide) (by decide)).2.2.1 rfl rfl rfl
  · exact (C5_clipboard_recapture (str "ab") _ (str "qq") (str "R") (str "c") ⟨0, 1, str "X"⟩
      [] false none (by decide) (by decide) (by decide)).2.2.2 rfl rfl rfl rfl

/-- C6 (counterexample to the claim as stated): an overwrite combined
with another operation is not always a conflict.  `append_eof` registers
the zero-length span at the end of the document, which does not intersect
the overwrite's span `[0, len)`, so the batch commits and the file is
written. -/
theorem C6_overwrite_counterexample :
    patchRun (some (str "ab"))
      [mkOp (str "overwrite") (str "x"), mkOp (str "append_eof") (str "y")]
      [] noTiers false none = .committed (str "xy") false [] [] := by decide

/-- C6 (amended): overwrite registers the edit span `(0, len(document))`;
any two registered edits whose spans intersect are rejected at
materialization time with an overlap error naming the indices of two
genuinely intersecting operations, and no commit occurs; in particular
overwrite conflicts with any matched replace in the same batch.  (A
zero-length insert at position 0 or at the end of the document, and any
edit on an empty document, registers a span that does not intersect the
overwrite span and is not rejected.) -/
theorem C6_overwrite_conflicts :
    (∀ (doc : Str) (T : Tiers) (i : Nat) (st : LoopState) (nt : Str),
      step doc T i st (mkOp (str "overwrite") nt) =
        .ok ⟨st.clip, st.edits ++ [⟨i, 0, doc.length, nt⟩], st.errs, st.notes⟩) ∧
    (∀ (orig : Str) (edits u v w : List Edit) (a b : Edit),
      edits = u ++ (a :: (v ++ (b :: w))) → intersects a b = true →
      ∃ i j, materialize orig edits = .error (i, j) ∧
        ∃ e f, e ∈ edits ∧ f ∈ edits ∧ e.idx = i ∧ f.idx = j ∧ intersects e f = true) ∧
    (∀ (doc : Str) (T : Tiers) (nt old nt2 : Str) (clip : Clipboards) (g : Bool)
      (hc : Option (List Str)) (j : Nat), old ≠ [] → occs doc old = [j] →
      patchRun (some doc) [mkOp (str "overwrite") nt, mkReplace old nt2] clip T g hc =
        .structuralError (.overlap 0 1) clip) := by
  refine ⟨step_overwrite, ?_, ?_⟩
  · intro orig edits u v w a b hdec hint
    cases hov : findOverlap edits with
    | none =>
      exfalso
      have hp := pairwise_of_findOverlap_none edits hov
      rw [hdec] at hp
      have hfalse := rel_of_pairwise_decomp hp
      rw [hfalse] at hint
      exact Bool.false_ne_true hint
    | some pr =>
      obtain ⟨e, f, he, hf, hi, hj, hef⟩ := findOverlap_some edits pr.1 pr.2 (by rw [hov])
      exact ⟨pr.1, pr.2, by unfold materialize; rw [hov], e, f, he, hf, hi, hj, hef⟩
  · intro doc T nt old nt2 clip g hc j hold hocc
    obtain ⟨hpre, hbound⟩ := occ_bounds doc old j hocc
    have holdlen : 1 ≤ old.length := List.length_pos.mpr hold
    have h1 := step_overwrite doc T 0 ⟨clip, [], [], []⟩ nt
    have h2 := step_plain_nocap doc T 1
      ⟨clip, [] ++ [⟨0, 0, doc.length, nt⟩], [], []⟩ (mkReplace old nt2)
      ⟨rfl, rfl, rfl, hold⟩ rfl
    have hspec : ladderSpec doc T old nt2 = some ⟨j, old.length, nt2⟩ := by
      unfold ladderSpec
      rw [ladder_count_one doc T old nt2 j hocc]
    have herr : ladderErr doc T old nt2 = none := by
      unfold ladderErr
      rw [ladder_count_one doc T old nt2 j hocc]
    have hloop : runLoop doc T 0 ⟨clip, [], [], []⟩
        [mkOp (str "overwrite") nt, mkReplace old nt2] =
        .ok ⟨clip, [⟨0, 0, doc.length, nt⟩, ⟨1, j, old.length, nt2⟩], [], []⟩ := by
      rw [runLoop, h1]
      show runLoop doc T 1 _ [mkReplace old nt2] = _
      rw [runLoop, h2]
      show Except.ok _ = _
      rw [show (mkReplace old nt2).oldText = old from rfl,
        show (mkReplace old nt2).newText = nt2 from rfl, hspec, herr]
      rfl
    rw [patchRun_some_ne doc _ clip T g hc (by simp),
      patchCore_eq_of_runLoop_ok doc _ clip T g hc _ hloop]
    have hint : intersects ⟨0, 0, doc.length, nt⟩ ⟨1, j, old.length, nt2⟩ = true := by
      unfold intersects
      simp only [Bool.and_eq_true, decide_eq_true_eq]
      omega
    have hfind : findOverlap [(⟨0, 0, doc.length, nt⟩ : Edit), ⟨1, j, old.length, nt2⟩] =
        some (0, 1) := by
      unfold findOverlap
      rw [List.find?_cons_of_pos _ hint]
    have hmat : materialize doc [(⟨0, 0, doc.length, nt⟩ : Edit), ⟨1, j, old.length, nt2⟩] =
        .error (0, 1) := by
      unfold materialize
      rw [hfind]
    simp only [List.isEmpty_nil, if_true]
    rw [hmat]

/-- Witness for C6 (amended): the overwrite registration, the overlap
rejection naming both operations, and the overwrite-plus-replace conflict
at concrete inputs. -/
theorem C6_overwrite_conflicts_witness :
    step (str "ab") noTiers 0 ⟨[], [], [], []⟩ (mkOp (str "overwrite") (str "x")) =
      .ok ⟨[], [⟨0, 0, 2, str "x"⟩], [], []⟩ ∧
    (∃ i j, materialize (str "ab") [(⟨0, 0, 2, str "x"⟩ : Edit), ⟨1, 0, 1, str "y"⟩] =
      .error (i, j) ∧
      ∃ e f, e ∈ [(⟨0, 0, 2, str "x"⟩ : Edit), ⟨1, 0, 1, str "y"⟩] ∧
        f ∈ [(⟨0, 0, 2, str "x"⟩ : Edit), ⟨1, 0, 1, str "y"⟩] ∧
        e.idx = i ∧ f.idx = j ∧ intersects e f = true) ∧
    patchRun (some (str "abc")) [mkOp (str "overwrite") (str "x"), mkReplace (str "b") (str "y")]
      [] noTiers false none = .structuralError (.overlap 0 1) [] := by
  refine ⟨?_, ?_, ?_⟩
  · exact C6_overwrite_conflicts.1 (str "ab") noTiers 0 ⟨[], [], [], []⟩ (str "x")
  · exact C6_overwrite_conflicts.2.1 (str "ab") _ [] [] [] ⟨0, 0, 2, str "x"⟩ ⟨1, 0, 1, str "y"⟩
      rfl (by decide)
  · exact C6_overwrite_conflicts.2.2 (str "abc") noTiers (str "x") (str "b") (str "y") []
      false none 1 (by decide) (by decide)

/-- C7: the autogenerated flag is raised iff a literal generator marker
occurs anywhere in the file or a header-region comment contains one of
the fixed phrases case-insensitively; a marker only inside a function
body (hence absent from the header comments of the imports-only parse)
that is not in the literal-signal set does not raise the flag; and the
flag is advisory only: the batch result is identical up to the warning
bit for every value of the autogenerated inputs, and a committed response
carries exactly the computed flag as its warning. -/
theorem C7_autogenerated_flag :
    (∀ (buf : Str) (hcs : Option (List Str)),
      IsAutogeneratedGoFile buf hcs = true ↔
        (∃ sig ∈ autogeneratedSignals, containsStr buf sig = true) ∨
        (∃ cgs, hcs = some cgs ∧ ∃ t ∈ cgs, ∃ sig ∈ autogeneratedHeaderSignals,
          containsStr (toLowerStr t) sig = true)) ∧
    (∀ (buf : Str) (cgs : List Str),
      (∀ sig ∈ autogeneratedSignals, containsStr buf sig = false) →
      (∀ t ∈ cgs, ∀ sig ∈ autogeneratedHeaderSignals, containsStr (toLowerStr t) sig = false) →
      IsAutogeneratedGoFile buf (some cgs) = false) ∧
    (∀ (f : Option Str) (ps : List PatchRequest) (clip : Clipboards) (T : Tiers)
      (g g' : Bool) (hc hc' : Option (List Str)),
      stripWarn (patchRun f ps clip T g hc) = stripWarn (patchRun f ps clip T g' hc')) ∧
    (∀ (f : Option Str) (ps : List PatchRequest) (clip : Clipboards) (T : Tiers) (g : Bool)
      (hc : Option (List Str)) (bytes : Str) (w : Bool) (notes : List Note) (clip' : Clipboards),
      patchRun f ps clip T g hc = .committed bytes w notes clip' →
      w = (g && IsAutogeneratedGoFile (f.getD []) hc)) := by
  refine ⟨?_, ?_, ?_, ?_⟩
  · intro buf hcs
    cases hcs with
    | none => simp [IsAutogeneratedGoFile, List.any_eq_true]
    | some cgs => simp [IsAutogeneratedGoFile, List.any_eq_true]
  · intro buf cgs h1 h2
    have e1 : autogeneratedSignals.any (fun sig => containsStr buf sig) = false := by
      rw [List.any_eq_false]
      intro sig hs
      simp [h1 sig hs]
    have e2 : cgs.any (fun t => autogeneratedHeaderSignals.any
        (fun sig => containsStr (toLowerStr t) sig)) = false := by
      rw [List.any_eq_false]
      intro t ht
      rw [Bool.not_eq_true, List.any_eq_false]
      intro sig hs
      simp [h2 t ht sig hs]
    show (autogeneratedSignals.any (fun sig => containsStr buf sig) ||
      cgs.any (fun t => autogeneratedHeaderSignals.any
        (fun sig => containsStr (toLowerStr t) sig))) = false
    rw [e1, e2]
    rfl
  · intro f ps clip T g g' hc hc'
    cases ps with
    | nil => rfl
    | cons q qs =>
      cases f with
      | some doc =>
        rw [patchRun_some_ne doc _ clip T g hc (by simp),
          patchRun_some_ne doc _ clip T g' hc' (by simp)]
        exact patchCore_stripWarn doc (q :: qs) clip T g g' hc hc'
      | none =>
        have h1 : patchRun none (q :: qs) clip T g hc =
            (if (q :: qs).all creatingOp then patchCore [] (q :: qs) clip T g hc
              else .structuralError .fileMissing clip) := rfl
        have h2 : patchRun none (q :: qs) clip T g' hc' =
            (if (q :: qs).all creatingOp then patchCore [] (q :: qs) clip T g' hc'
              else .structuralError .fileMissing clip) := rfl
        rw [h1, h2]
        by_cases hall : (q :: qs).all creatingOp
        · rw [if_pos hall, if_pos hall]
          exact patchCore_stripWarn [] (q :: qs) clip T g g' hc hc'
        · rw [if_neg hall, if_neg hall]
  · intro f ps clip T g hc bytes w notes clip' h
    cases ps with
    | nil => exact absurd h (by simp [patchRun])
    | cons q qs =>
      cases f with
      | some doc =>
        rw [patchRun_some_ne doc _ clip T g hc (by simp)] at h
        obtain ⟨st, _, _, _, _, hw⟩ :=
          patchCore_committed_inv doc (q :: qs) clip T g hc bytes w notes clip' h
        exact hw
      | none =>
        have h2 : (if (q :: qs).all creatingOp then patchCore [] (q :: qs) clip T g hc
            else .structuralError .fileMissing clip) = .committed bytes w notes clip' := h
        by_cases hall : (q :: qs).all creatingOp
        · rw [if_pos hall] at h2
          obtain ⟨st, _, _, _, _, hw⟩ :=
            patchCore_committed_inv [] (q :: qs) clip T g hc bytes w notes clip' h2
          exact hw
        · rw [if_neg hall] at h2
          exact absurd h2 (by simp)

/-- Witness for C7: the flag raised by a header comment, not raised by a
body-only marker, and advisory at a concrete run that commits with the
warning set. -/
theorem C7_autogenerated_flag_witness :
    IsAutogeneratedGoFile (str "package x")
      (some [str "Code generated by x. DO NOT EDIT."]) = true ∧
    IsAutogeneratedGoFile (str "package x\nfunc f()\n// DO NOT EDIT\n") (some []) = false ∧
    stripWarn (patchRun (some (str "ab")) [mkReplace (str "a") (str "x")] [] noTiers true
        (some [str "DO NOT EDIT"])) =
      stripWarn (patchRun (some (str "ab")) [mkReplace (str "a") (str "x")] [] noTiers
        false none) ∧
    true = (true && IsAutogeneratedGoFile (str "ab") (some [str "DO NOT EDIT"])) := by
  refine ⟨?_, ?_, ?_, ?_⟩
  · exact (C7_autogenerated_flag.1 (str "package x")
      (some [str "Code generated by x. DO NOT EDIT."])).mpr
      (Or.inr ⟨[str "Code generated by x. DO NOT EDIT."], rfl,
        str "Code generated by x. DO NOT EDIT.", List.mem_singleton.mpr rfl,
        str "generate", by decide, by decide⟩)
  · exact C7_autogenerated_flag.2.1 (str "package x\nfunc f()\n// DO NOT EDIT\n") []
      (by decide) (by decide)
  · exact C7_autogenerated_flag.2.2.1 (some (str "ab")) [mkReplace (str "a") (str "x")] []
      noTiers true false (some [str "DO NOT EDIT"]) none
  · exact C7_autogenerated_flag.2.2.2 (some (str "ab")) [mkReplace (str "a") (str "x")] []
      noTiers true (some [str "DO NOT EDIT"]) (str "xb") true [] [] (by decide)

/-- C8 (counterexample to the claim as stated): a batch containing a
no-op replace does not always commit to bytes identical to the original:
another operation in the same batch changes other spans, and a no-op
replace matched via a looser tier replaces a span whose content differs
from the old text. -/
theorem C8_noop_counterexample :
    (patchRun (some (str "ab"))
        [mkReplace (str "a") (str "a"), mkOp (str "append_eof") (str "x")]
        [] noTiers false none = .committed (str "abx") false [] [] ∧
      str "abx" ≠ str "ab") ∧
    (patchRun (some (str "b  c")) [mkReplace (str "b c") (str "b c")] []
        ⟨fun _ _ _ => some ⟨0, 4, str "b c"⟩, fun _ _ _ => none, fun _ _ _ => none,
          fun _ _ _ => none⟩ false none = .committed (str "b c") false [] [] ∧
      str "b c" ≠ str "b  c") :=
  ⟨⟨by decide, by decide⟩, ⟨by decide, by decide⟩⟩

/-- C8 (amended): a batch all of whose operations are replaces without
clipboard substitution or reindent, each with new text equal to its old
text and old text occurring exactly once in the document (so each matches
via tier 1), that commits successfully produces final file bytes
identical to the original document. -/
theorem C8_noop_idempotence (doc : Str) (T : Tiers) (ops : List PatchRequest) (clip : Clipboards)
    (g : Bool) (hc : Option (List Str)) (bytes : Str) (w : Bool) (notes : List Note)
    (clip' : Clipboards)
    (hops : ∀ p ∈ ops, p.operation = str "replace" ∧ p.fromClipboard = [] ∧ p.reindent = none ∧
      p.newText = p.oldText ∧ countOccurrences doc p.oldText = 1)
    (hrun : patchRun (some doc) ops clip T g hc = .committed bytes w notes clip') :
    bytes = doc := by
  cases ops with
  | nil => exact absurd hrun (by simp [patchRun])
  | cons q qs =>
    rw [patchRun_some_ne doc _ clip T g hc (by simp)] at hrun
    obtain ⟨st, hr, herrs, hmat, _, _⟩ :=
      patchCore_committed_inv doc (q :: qs) clip T g hc bytes w notes clip' hrun
    have hne : ∀ p ∈ q :: qs, p.oldText ≠ [] := by
      intro p hp he
      obtain ⟨hop, hfc, hri, _, _⟩ := hops p hp
      exact runLoop_ok_no_empty_replace doc T (q :: qs) 0 ⟨clip, [], [], []⟩ st hr p hp
        ⟨hop, hfc, hri, he⟩
    have hplain : ∀ p ∈ q :: qs, plainReplace p := fun p hp =>
      ⟨(hops p hp).1, (hops p hp).2.1, (hops p hp).2.2.1, hne p hp⟩
    obtain ⟨c, n, hloop⟩ := runLoop_plain doc T (q :: qs) 0 ⟨clip, [], [], []⟩ hplain
    have hst := Except.ok.inj (hr.symm.trans hloop)
    have hedits : st.edits = editsOf doc T 0 (q :: qs) := by
      rw [hst]
      rfl
    have hprops := editsOf_noop_props doc T (q :: qs) 0
      (fun p hp => ⟨(hops p hp).2.2.2.1, (hops p hp).2.2.2.2, hne p hp⟩)
    cases hov : findOverlap st.edits with
    | some pr =>
      unfold materialize at hmat
      rw [hov] at hmat
      exact absurd hmat (by simp)
    | none =>
      have hid := materialize_id doc st.edits hov
        (fun e he => ⟨(hprops e (hedits ▸ he)).1, (hprops e (hedits ▸ he)).2.1⟩)
        (fun e he => (hprops e (hedits ▸ he)).2.2)
      rw [hid] at hmat
      exact (Except.ok.inj hmat).symm

/-- Witness for C8 (amended): a single no-op replace on `"abc"` commits
to the original bytes. -/
theorem C8_noop_idempotence_witness : (str "abc" : Str) = str "abc" :=
  C8_noop_idempotence (str "abc") noTiers [mkReplace (str "b") (str "b")] [] false none
    (str "abc") false [] [] (by decide) (by decide)

/-- C9: a rejected batch does not roll back the clipboard store: every
entry present before the batch is still readable afterwards, every
operation with a capture name has left an entry under that name, and the
surviving entries (both the verbatim pre-match capture and a tier-2
adjusted re-capture) are observable by later batches through the returned
store, as the two concrete chains show. -/
theorem C9_clipboard_persists_on_rejection :
    (∀ (f : Option Str) (ps : List PatchRequest) (clip : Clipboards) (T : Tiers) (g : Bool)
      (hc : Option (List Str)) (errs : List MatchErr) (notes : List Note) (clip' : Clipboards),
      patchRun f ps clip T g hc = .rejected errs notes clip' →
      ∀ k v, lookupClip clip k = some v → ∃ v', lookupClip clip' k = some v') ∧
    (∀ (f : Option Str) (ps : List PatchRequest) (clip : Clipboards) (T : Tiers) (g : Bool)
      (hc : Option (List Str)) (errs : List MatchErr) (notes : List Note) (clip' : Clipboards),
      patchRun f ps clip T g hc = .rejected errs notes clip' →
      ∀ p ∈ ps, p.toClipboard ≠ [] → ∃ v, lookupClip clip' p.toClipboard = some v) ∧
    (patchRun (some (str "ab")) [mkReplaceCap (str "zz") (str "w") (str "c")] [] noTiers
        false none = .rejected [.notFound (str "zz")] [] [(str "c", str "zz")] ∧
      patchRun (some (str "xy")) [⟨str "replace", str "x", [], [], str "c", none⟩]
        [(str "c", str "zz")] noTiers false none =
        .committed (str "zzy") false [] [(str "c", str "zz")]) ∧
    patchRun (some (str "ab"))
      [mkReplaceCap (str "qq") (str "R") (str "c"), mkReplace (str "zz") (str "w")] []
      ⟨fun _ old _ => if old = str "qq" then some ⟨0, 1, str "R"⟩ else none,
        fun _ _ _ => none, fun _ _ _ => none, fun _ _ _ => none⟩ false none =
      .rejected [.notFound (str "zz")] [⟨str "c", str "a"⟩]
        [(str "c", str "a"), (str "c", str "qq")] := by
  refine ⟨?_, ?_, ⟨by decide, by decide⟩, by decide⟩
  · intro f ps clip T g hc errs notes clip' h k v hv
    obtain ⟨doc, st, hr, hclip⟩ := patchRun_rejected_inv f ps clip T g hc errs notes clip' h
    obtain ⟨pre, hpre⟩ := runLoop_clip_extend doc T ps 0 ⟨clip, [], [], []⟩ st hr
    obtain ⟨v', hv'⟩ := lookupClip_mono_append pre clip k v hv
    refine ⟨v', ?_⟩
    rw [hclip, hpre]
    exact hv'
  · intro f ps clip T g hc errs notes clip' h p hp htc
    obtain ⟨doc, st, hr, hclip⟩ := patchRun_rejected_inv f ps clip T g hc errs notes clip' h
    obtain ⟨v, hv⟩ := runLoop_toC_some doc T ps 0 ⟨clip, [], [], []⟩ st hr p hp htc
    refine ⟨v, ?_⟩
    rw [hclip]
    exact hv

/-- Witness for C9: the persistence statements applied to a concrete
rejected batch. -/
theorem C9_clipboard_persists_on_rejection_witness :
    (∃ v', lookupClip [(str "k", str "v")] (str "k") = some v') ∧
    (∃ v, lookupClip [(str "c", str "zz")] (str "c") = some v) := by
  refine ⟨?_, ?_⟩
  · exact C9_clipboard_persists_on_rejection.1 (some (str "ab")) [mkReplace (str "zz") (str "w")]
      [(str "k", str "v")] noTiers false none [.notFound (str "zz")] [] [(str "k", str "v")]
      (by decide) (str "k") (str "v") rfl
  · exact C9_clipboard_persists_on_rejection.2.1 (some (str "ab"))
      [mkReplaceCap (str "zz") (str "w") (str "c")] [] noTiers false none
      [.notFound (str "zz")] [] [(str "c", str "zz")] (by decide)
      (mkReplaceCap (str "zz") (str "w") (str "c")) (List.mem_singleton.mpr rfl) (by decide)

end Shelley
